import Mathlib

/-!
# Verification of the Complaint Resolution Matching Engine

A shallow embedding, in Lean 4, of the core of the
`new_complain_handling_system` repository
(`backend/app/simple_solution.py` and `backend/app/location.py`),
together with theorems settling the specification claims about it.

Modelling conventions:
* Python strings are modelled as `List Char` (ASCII fragment; the corpus and
  all inputs exercised here are ASCII).
* The specific regular expressions of `remove_specific_locations`,
  `format_solution_paragraphs` are compiled by hand into deterministic
  scanners.  For each of these concrete patterns, greedy matching with
  backtracking coincides with maximal-munch matching (justified in the
  doc comment of each scanner), so the scanners implement exactly
  Python `re.sub` / `re.split` semantics for these patterns.
* `hashlib.md5(s.encode()).hexdigest()` is used by the code only as an
  equality test on the signature-input string; the embedding models the
  digest as the signature-input string itself (i.e. an injective digest).
* Python numbers appearing in condition dictionaries are modelled as exact
  integers/rationals (`PyVal.pint`, `PyVal.pfloat`); IEEE floating point
  noise is not modelled.
-/

/-- Python `\w` (word character), ASCII fragment: `[a-zA-Z0-9_]`. -/
def isWordB (c : Char) : Bool :=
  c.isAlphanum || c == '_'

/-- Python `\s` (whitespace), ASCII fragment: space, tab, newline, carriage
return, vertical tab, form feed. -/
def isPySpace (c : Char) : Bool :=
  c == ' ' || c == '\t' || c == '\n' || c == '\r' ||
  c == Char.ofNat 11 || c == Char.ofNat 12

/-- Python `str.lower` on one ASCII character (`A`–`Z` shift to `a`–`z`). -/
def toLowerA (c : Char) : Char :=
  if c.isUpper then Char.ofNat (c.toNat + 32) else c

/-- Python `str.lower`, ASCII fragment. -/
def pyLower (s : List Char) : List Char :=
  s.map toLowerA

/-- Python `str.strip()`: remove leading and trailing whitespace. -/
def pyStrip (s : List Char) : List Char :=
  ((s.dropWhile isPySpace).reverse.dropWhile isPySpace).reverse

/-- Characters of a Lean string literal, used to write concrete inputs. -/
def chars (s : String) : List Char :=
  s.data

/-- Length of the maximal run of characters satisfying `p` at the front. -/
def runLen (p : Char → Bool) (s : List Char) : Nat :=
  (s.takeWhile p).length

/-- `\b` immediately before a word character: the previous character (if any)
must not be a word character. -/
def boundaryBefore (prev : Option Char) : Bool :=
  match prev with
  | none => true
  | some p => !isWordB p

/-- `\b` immediately after a word character: the next character (if any)
must not be a word character. -/
def boundaryAfter (rest : List Char) : Bool :=
  match rest with
  | [] => true
  | c :: _ => !isWordB c

/-- One pass of Python `re.sub`: scan left to right, at each position attempt
a match with `tryM prev s` (which returns the length of the match, if any;
all patterns used here match at least one character), splice in `repl`, and
continue scanning after the matched text.  Word-boundary conditions of later
match attempts look at the original string, so `prev` is carried as the last
character of the matched (not the replacement) text. -/
def pySubAux (tryM : Option Char → List Char → Option Nat) (repl : List Char) :
    Nat → Option Char → List Char → List Char
  | 0, _, s => s
  | _, _, [] => []
  | fuel + 1, prev, c :: rest =>
    match tryM prev (c :: rest) with
    | some n =>
      if n = 0 then
        c :: pySubAux tryM repl fuel (some c) rest
      else
        repl ++ pySubAux tryM repl fuel ((c :: rest).get? (n - 1)) (rest.drop (n - 1))
    | none => c :: pySubAux tryM repl fuel (some c) rest

/-- Python `re.sub(pattern, repl, s)` for the hand-compiled `tryM` scanner.
The fuel `s.length` always suffices: every match consumes at least one
character (structural recursion on fuel keeps the definition kernel-reducible
on concrete inputs). -/
def pySub (tryM : Option Char → List Char → Option Nat) (repl : List Char)
    (s : List Char) : List Char :=
  pySubAux tryM repl s.length none s

/-- Scanner for `\b[A-Z]+\d+[A-Z]*\b`.  Greedy matching with backtracking
coincides with maximal munch here: if the trailing `\b` fails after maximal
runs, the following character is a word character, and any shorter choice of
`[A-Z]*`, `\d+` or `[A-Z]+` puts a word character (an uppercase letter or a
digit) right after the candidate match or breaks a mandatory character class,
so no backtracked alternative can succeed either. -/
def tryUpperDigit (prev : Option Char) (s : List Char) : Option Nat :=
  if !boundaryBefore prev then none
  else
    let u := runLen Char.isUpper s
    if u = 0 then none
    else
      let s1 := s.drop u
      let d := runLen Char.isDigit s1
      if d = 0 then none
      else
        let s2 := s1.drop d
        let t := runLen Char.isUpper s2
        if boundaryAfter (s2.drop t) then some (u + d + t) else none

/-- Scanner for `\b\d+\.\d+\b` (maximal munch, by the same argument). -/
def tryDecimal (prev : Option Char) (s : List Char) : Option Nat :=
  if !boundaryBefore prev then none
  else
    let d1 := runLen Char.isDigit s
    if d1 = 0 then none
    else
      match s.drop d1 with
      | '.' :: s2 =>
        let d2 := runLen Char.isDigit s2
        if d2 = 0 then none
        else if boundaryAfter (s2.drop d2) then some (d1 + 1 + d2) else none
      | _ => none

/-- Scanner for `\b\d+\b` (maximal munch). -/
def tryInteger (prev : Option Char) (s : List Char) : Option Nat :=
  if !boundaryBefore prev then none
  else
    let d := runLen Char.isDigit s
    if d = 0 then none
    else if boundaryAfter (s.drop d) then some d else none

/-- Scanner for `\b\d+dBm\b` (maximal munch). -/
def tryDbm (prev : Option Char) (s : List Char) : Option Nat :=
  if !boundaryBefore prev then none
  else
    let d := runLen Char.isDigit s
    if d = 0 then none
    else
      match s.drop d with
      | 'd' :: 'B' :: 'm' :: s2 =>
        if boundaryAfter s2 then some (d + 3) else none
      | _ => none

/-- Scanner for `\b\d+%\b`.  The trailing `\b` sits after the non-word `%`,
so it requires the next character to exist and be a word character. -/
def tryPercent (prev : Option Char) (s : List Char) : Option Nat :=
  if !boundaryBefore prev then none
  else
    let d := runLen Char.isDigit s
    if d = 0 then none
    else
      match s.drop d with
      | '%' :: c :: _ => if isWordB c then some (d + 1) else none
      | _ => none

/-- Scanner for `\s+` (maximal munch; nothing follows the quantifier). -/
def trySpaces (_prev : Option Char) (s : List Char) : Option Nat :=
  let w := runLen isPySpace s
  if w = 0 then none else some w

/-- Scanner for `,\s*,`: a comma, a maximal whitespace run, a comma.  If the
character after the maximal run is not a comma, shorter runs end on a
whitespace character, so backtracking cannot succeed. -/
def tryCommaComma (_prev : Option Char) (s : List Char) : Option Nat :=
  match s with
  | ',' :: s1 =>
    let w := runLen isPySpace s1
    match s1.drop w with
    | ',' :: _ => some (w + 2)
    | _ => none
  | _ => none

/-- Scanner for `\s,`. -/
def trySpaceComma (_prev : Option Char) (s : List Char) : Option Nat :=
  match s with
  | c :: ',' :: _ => if isPySpace c then some 2 else none
  | _ => none

/-- `remove_specific_locations` from `backend/app/simple_solution.py`:
the eight `re.sub` passes in source order, then `str.strip()`.  The guard
`if not text or not text.strip(): return text` is the first branch. -/
def remove_specific_locations (text : List Char) : List Char :=
  if pyStrip text = [] then text
  else
    pyStrip
      (pySub trySpaceComma (chars ",")
        (pySub tryCommaComma (chars ",")
          (pySub trySpaces (chars " ")
            (pySub tryPercent []
              (pySub tryDbm (chars "current signal level")
                (pySub tryInteger []
                  (pySub tryDecimal []
                    (pySub tryUpperDigit (chars "the area") text))))))))

/-- Decimal digits of a natural number, e.g. `natDigits 123 = "123"`. -/
def natDigits (n : Nat) : List Char :=
  Nat.toDigits 10 n

/-- Python `str` of an `int`. -/
def intRepr (z : Int) : List Char :=
  if z < 0 then '-' :: natDigits z.natAbs else natDigits z.natAbs

/-- Python `repr` of a float holding the exact decimal value `q` (with
denominator dividing `10^6`, as produced by `round(x, 6)`): optional sign,
integer part, `'.'`, fractional digits without trailing zeros, `".0"` for
integral values.  Floats are modelled as exact rationals. -/
def floatRepr (q : ℚ) : List Char :=
  let sign : List Char := if q < 0 then ['-'] else []
  let scaled : Int := (|q| * 1000000).floor
  let ip : Nat := (scaled / 1000000).toNat
  let frac : Nat := (scaled % 1000000).toNat
  let fracDigits :=
    let ds := natDigits frac
    let padded := List.replicate (6 - ds.length) '0' ++ ds
    let trimmed := (padded.reverse.dropWhile (· == '0')).reverse
    if trimmed = [] then ['0'] else trimmed
  sign ++ natDigits ip ++ '.' :: fracDigits

/-- Python 3 `round` to an integer: round half to even. -/
def roundHalfEven (q : ℚ) : Int :=
  let f := ⌊q⌋
  let r := q - f
  if r < 1/2 then f
  else if 1/2 < r then f + 1
  else if f % 2 = 0 then f else f + 1

/-- Python `round(x, 6)` on the exact-rational float model. -/
def pyRound6 (q : ℚ) : ℚ :=
  (roundHalfEven (q * 1000000) : ℚ) / 1000000

/-- A value stored in a Python dictionary: a string, an `int`, a `float`
(modelled as an exact rational), or `None`. -/
inductive PyVal where
  | pstr (s : List Char)
  | pint (z : Int)
  | pfloat (q : ℚ)
  | pnone
deriving DecidableEq

/-- Python `str(value)`. -/
def pyStrOf : PyVal → List Char
  | .pstr s => s
  | .pint z => intRepr z
  | .pfloat q => floatRepr q
  | .pnone => chars "None"

/-- `isinstance(value, (int, float))`. -/
def isNumeric : PyVal → Bool
  | .pint _ => true
  | .pfloat _ => true
  | _ => false

/-- Numeric value of an `int`/`float` (`float(value)`). -/
def toQ : PyVal → ℚ
  | .pint z => (z : ℚ)
  | .pfloat q => q
  | _ => 0

/-- A Python dictionary of conditions, modelled as its association list.
Keys are unique (Python dict semantics); `[]` stands for both `None` and the
empty dict, which the code treats identically (`if conditions:` is falsy on
both, and an empty pair list joins to the empty string). -/
abbrev CondDict : Type :=
  List (List Char × PyVal)

/-- `conditions.get(key)`: `none` when the key is absent. -/
def dictGet (d : CondDict) (k : List Char) : Option PyVal :=
  (List.find? (fun p => p.1 == k) d).map (fun p => p.2)

/-- The case-insensitive sentinel strings of the Signature Builder:
`['', 'n/a', 'none', 'null', 'undefined']`. -/
def sentinelStrings : List (List Char) :=
  [[], chars "n/a", chars "none", chars "null", chars "undefined"]

/-- The fixed, ordered allow-list `all_conditions` of condition keys, in
source order. -/
def all_conditions : List (List Char) :=
  [chars "device_type_settings_vpn_apn", chars "signal_strength",
   chars "quality_of_signal", chars "site_kpi_alarm",
   chars "past_data_analysis", chars "indoor_outdoor_coverage_issue",
   chars "location", chars "longitude", chars "latitude"]

/-- The two coordinate keys. -/
def coordKeys : List (List Char) :=
  [chars "longitude", chars "latitude"]

/-- The `"key:value"` pair contributed by one allow-listed key in
`create_complaint_signature`, or `none` when the value is skipped:
absent or `None` values are skipped, values whose `str(value).strip().lower()`
is a sentinel are skipped, numeric coordinates are included only when their
absolute value exceeds `0.001` (formatted via `round(float(value), 6)`), and
all other values are formatted as `str(value).lower().strip()`. -/
def pairFor (key : List Char) (value : Option PyVal) : Option (List Char) :=
  match value with
  | none => none
  | some v =>
    if v = PyVal.pnone then none
    else if pyLower (pyStrip (pyStrOf v)) ∈ sentinelStrings then none
    else if key ∈ coordKeys ∧ isNumeric v then
      if 1/1000 < |toQ v| then some (key ++ ':' :: floatRepr (pyRound6 (toQ v)))
      else none
    else some (key ++ ':' :: pyStrip (pyLower (pyStrOf v)))

/-- `condition_values`: the included pairs, scanning `all_conditions` in
source order. -/
def condition_values (c : CondDict) : List (List Char) :=
  all_conditions.filterMap (fun k => pairFor k (dictGet c k))

/-- Python `<` on strings: lexicographic by code point. -/
def listLtb : List Char → List Char → Bool
  | [], [] => false
  | [], _ :: _ => true
  | _ :: _, [] => false
  | a :: as, b :: bs => if a < b then true else if b < a then false else listLtb as bs

/-- Stable insertion of one string into an ascending-sorted list (a later
element goes after equal earlier ones, as in Python `sorted`). -/
def insertAsc (a : List Char) : List (List Char) → List (List Char)
  | [] => [a]
  | b :: bs => if listLtb a b then a :: b :: bs else b :: insertAsc a bs

/-- Python `sorted` on a list of strings. -/
def sortAsc (l : List (List Char)) : List (List Char) :=
  l.foldl (fun acc x => insertAsc x acc) []

/-- Python `sep.join(parts)`. -/
def joinWith (sep : List Char) : List (List Char) → List Char
  | [] => []
  | [a] => a
  | a :: b :: rest => a ++ sep ++ joinWith sep (b :: rest)

/-- `'|'.join(parts)`. -/
def joinBar (parts : List (List Char)) : List Char :=
  joinWith ['|'] parts

/-- `SimpleComplaintHandler.create_complaint_signature`.  The returned value
is the `signature_input` string
`f"{normalized_complaint}|{condition_str}"`; the code feeds it to
`hashlib.md5(...).hexdigest()`, which it uses only for equality comparison —
the digest is modelled as the signature input itself (an injective digest). -/
def create_complaint_signature (complaint_text : List Char) (conditions : CondDict) :
    List Char :=
  let normalized_complaint := remove_specific_locations (pyStrip (pyLower complaint_text))
  let condition_str :=
    if conditions = [] then []
    else joinBar (sortAsc (condition_values conditions))
  normalized_complaint ++ '|' :: condition_str

/-- One historical complaint record (`complaint_data` row).  A field is
`none` when the column is missing or the cell is NaN (both take the
`pd.notna`-false branch); string fields hold `str(cell)`; `lon`/`lat` are
`none` also when `float(cell)` fails (the `except: continue` path). -/
structure ComplaintRow where
  issue : Option (List Char)
  solution : Option (List Char)
  device : Option (List Char)
  sigStrength : Option (List Char)
  quality : Option (List Char)
  siteKpi : Option (List Char)
  pastData : Option (List Char)
  indoorOutdoor : Option (List Char)
  lon : Option ℚ
  lat : Option ℚ
deriving DecidableEq

/-- Contribution of a string-valued column to `hist_conditions`: included
when present and `str(val).strip()` is truthy. -/
def strEntry (k : String) (v : Option (List Char)) : CondDict :=
  match v with
  | some s => if pyStrip s = [] then [] else [(chars k, PyVal.pstr s)]
  | none => []

/-- Contribution of a coordinate column to `hist_conditions`: included when
parseable and `abs(fval) > 0.001`; the stored value is the float `fval`. -/
def coordEntry (k : String) (v : Option ℚ) : CondDict :=
  match v with
  | some q => if 1/1000 < |q| then [(chars k, PyVal.pfloat q)] else []
  | none => []

/-- The `hist_conditions` dict rebuilt from a historical record in
`find_exact_match`, in source (insertion) order. -/
def hist_conditions (r : ComplaintRow) : CondDict :=
  strEntry "device_type_settings_vpn_apn" r.device ++
  strEntry "signal_strength" r.sigStrength ++
  strEntry "quality_of_signal" r.quality ++
  strEntry "site_kpi_alarm" r.siteKpi ++
  strEntry "past_data_analysis" r.pastData ++
  strEntry "indoor_outdoor_coverage_issue" r.indoorOutdoor ++
  coordEntry "longitude" r.lon ++
  coordEntry "latitude" r.lat

/-- The signature recomputed for a historical record inside
`find_exact_match`: the issue description is location-normalized first and
the signature builder is applied to the result. -/
def hist_signature (r : ComplaintRow) : List Char :=
  create_complaint_signature
    (remove_specific_locations (r.issue.getD []))
    (hist_conditions r)

/-- One pass of Python `re.split`: like `pySubAux`, but collecting the
segments between matches (empty segments included, as in `re.split`). -/
def pySplitAux (tryM : Option Char → List Char → Option Nat) :
    Nat → Option Char → List Char → List (List Char)
  | 0, _, _ => [[]]
  | _, _, [] => [[]]
  | fuel + 1, prev, c :: rest =>
    match tryM prev (c :: rest) with
    | some n =>
      if n = 0 then
        match pySplitAux tryM fuel (some c) rest with
        | [] => [[c]]
        | seg :: segs => (c :: seg) :: segs
      else
        [] :: pySplitAux tryM fuel ((c :: rest).get? (n - 1)) (rest.drop (n - 1))
    | none =>
      match pySplitAux tryM fuel (some c) rest with
      | [] => [[c]]
      | seg :: segs => (c :: seg) :: segs

/-- Python `re.split(pattern, s)` for a hand-compiled scanner. -/
def pySplit (tryM : Option Char → List Char → Option Nat) (s : List Char) :
    List (List Char) :=
  pySplitAux tryM s.length none s

/-- Scanner for `\n\s*\d+\.` (used by `re.split`): newline, maximal
whitespace run, maximal digit run, dot.  Backtracking cannot produce other
matches: a shorter `\s*` leaves a whitespace (non-digit) character under
`\d+`, a shorter `\d+` leaves a digit under the literal dot. -/
def tryNlNumDot (_prev : Option Char) (s : List Char) : Option Nat :=
  match s with
  | '\n' :: s1 =>
    let w := runLen isPySpace s1
    let s2 := s1.drop w
    let d := runLen Char.isDigit s2
    if d = 0 then none
    else
      match s2.drop d with
      | '.' :: _ => some (1 + w + d + 1)
      | _ => none
  | _ => none

/-- Scanner for `\n\s*\n` (used by `re.split`): a newline, then the final
`\n` consumes the last newline inside the following maximal whitespace run
(the greedy `\s*` backtracks to just before it; the character after the
maximal run is never a newline). -/
def tryNlNl (_prev : Option Char) (s : List Char) : Option Nat :=
  match s with
  | '\n' :: s1 =>
    let w := runLen isPySpace s1
    let ws := s1.take w
    match ws.reverse.findIdx? (fun c => c == '\n') with
    | some i => some (1 + (w - 1 - i) + 1)
    | none => none
  | _ => none

/-- The anchored `re.sub(r'^\s*[A-Z ]+:\s*', '', s)` of
`format_solution_paragraphs`.  The space character belongs to both `\s` and
`[A-Z ]`; every successful backtrack of the greedy `\s*` shifts characters
between the two classes without moving the end of the match, so the match
exists iff either the maximal class run after the maximal whitespace run is
non-empty and followed by `':'`, or the class run is empty, the whitespace
run ends in a plain space and is followed directly by `':'`. -/
def stripHeading (s : List Char) : List Char :=
  let w := runLen isPySpace s
  let ws := s.take w
  let s1 := s.drop w
  let m := runLen (fun c => c.isUpper || c == ' ') s1
  if 1 ≤ m then
    match s1.drop m with
    | ':' :: s2 => s2.drop (runLen isPySpace s2)
    | _ => s
  else
    match s1 with
    | ':' :: s2 =>
      if ws.getLast? = some ' ' then s2.drop (runLen isPySpace s2) else s
    | _ => s

/-- Strip each split segment and keep the non-blank ones:
`[para.strip() for para in raw_paragraphs if para.strip()]`. -/
def keepStripped (segs : List (List Char)) : List (List Char) :=
  segs.filterMap (fun p => if pyStrip p = [] then none else some (pyStrip p))

/-- `f"{i}. {para}"` numbering of `enumerate(paragraphs[:4], 1)`. -/
def numberedFirstFour (ps : List (List Char)) : List (List Char) :=
  (ps.take 4).enum.map (fun ip => natDigits (ip.1 + 1) ++ '.' :: ' ' :: ip.2)

/-- `format_solution_paragraphs` from `backend/app/simple_solution.py`. -/
def format_solution_paragraphs (solution_text : List Char) (solution_type : List Char) :
    List Char :=
  if pyStrip solution_text = [] then chars "No solution generated."
  else
    let cleaned_text := remove_specific_locations (pyStrip solution_text)
    let raw1 := keepStripped (pySplit tryNlNumDot cleaned_text)
    let paragraphs :=
      if 2 ≤ raw1.length then
        numberedFirstFour
          (raw1.map (fun p => pyStrip (stripHeading (remove_specific_locations p))))
      else
        numberedFirstFour
          ((keepStripped (pySplit tryNlNl cleaned_text)).map remove_specific_locations)
    let paragraphs :=
      if paragraphs = [] then
        [chars "1. Please contact technical support for detailed analysis and assistance with this issue."]
      else paragraphs
    joinWith (chars "\n\n") paragraphs ++
      chars "\n\n[Solution type: " ++ solution_type ++ chars "]"

/-- The scan of `find_exact_match` over the corpus: first record whose
recomputed signature equals the incoming one wins. -/
def findMatchScan (sig : List Char) : List ComplaintRow → Option (List Char)
  | [] => none
  | r :: rest =>
    if sig = hist_signature r then
      some (format_solution_paragraphs (r.solution.getD (chars "No solution found"))
        (chars "exact_match"))
    else findMatchScan sig rest

/-- `SimpleComplaintHandler.find_exact_match`: `none` on an empty corpus,
otherwise the formatted stored solution of the first record whose rebuilt
signature equals the incoming complaint's signature, `none` when the scan
finds no match. -/
def find_exact_match (corpus : List ComplaintRow) (complaint_text : List Char)
    (conditions : CondDict) : Option (List Char) :=
  if corpus = [] then none
  else findMatchScan (create_complaint_signature complaint_text conditions) corpus

/-- `dropWhile` never lengthens a list (termination helper). -/
theorem dropWhile_length_le (p : Char → Bool) (l : List Char) :
    (l.dropWhile p).length ≤ l.length := by
  induction l with
  | nil => simp [List.dropWhile]
  | cons a l ih =>
    rw [List.dropWhile_cons]
    split
    · exact le_trans ih (by simp)
    · simp

/-- Fueled worker for Python `str.split()`. -/
def pySplitWsAux : Nat → List Char → List (List Char)
  | 0, _ => []
  | _, [] => []
  | fuel + 1, c :: rest =>
    if isPySpace c then pySplitWsAux fuel rest
    else
      (c :: rest.takeWhile (fun d => !isPySpace d)) ::
        pySplitWsAux fuel (rest.dropWhile (fun d => !isPySpace d))

/-- Python `str.split()` (no separator): whitespace-delimited tokens, no
empties. -/
def pySplitWs (s : List Char) : List (List Char) :=
  pySplitWsAux s.length s

/-- Token set of the incoming complaint text in `find_similar_complaints`:
`set(remove_specific_locations(complaint_text.lower()).split())`. -/
def complaintTokens (complaint_text : List Char) : Finset (List Char) :=
  (pySplitWs (remove_specific_locations (pyLower complaint_text))).toFinset

/-- Token set of a record's issue description in `find_similar_complaints`:
`set(remove_specific_locations(str(issue)).lower().split())`. -/
def issueTokens (issue_text : List Char) : Finset (List Char) :=
  (pySplitWs (pyLower (remove_specific_locations issue_text))).toFinset

/-- The token-set similarity of `find_similar_complaints`:
`len(cw & iw) / len(cw | iw)` when the union is non-empty, else `0`.  The
first argument plays the incoming-complaint role, the second the stored
issue-description role. -/
def simScore (complaint_text : List Char) (issue_text : List Char) : ℚ :=
  let cw := complaintTokens complaint_text
  let iw := issueTokens issue_text
  let inter := (cw ∩ iw).card
  let union := (cw ∪ iw).card
  if 0 < union then (inter : ℚ) / (union : ℚ) else 0

/-- `row.to_dict()` with the `Solution` and `Issue Description` fields
re-normalized, as built inside the `find_similar_complaints` loop. -/
def normalizeRowData (r : ComplaintRow) : ComplaintRow :=
  { r with
    solution := r.solution.map remove_specific_locations,
    issue := r.issue.map remove_specific_locations }

/-- The scored candidates of `find_similar_complaints`, annotated with their
corpus position: one entry `(similarity, index, normalized row)` for every
record whose score strictly exceeds `0.1`, in corpus order. -/
def scoredCandidates (corpus : List ComplaintRow) (complaint_text : List Char) :
    List (ℚ × Nat × ComplaintRow) :=
  corpus.enum.filterMap (fun ir =>
    let s := simScore complaint_text (ir.2.issue.getD [])
    if 1/10 < s then some (s, ir.1, normalizeRowData ir.2) else none)

/-- Stable descending insertion by score: a later element goes after earlier
elements with an equal or larger score, which is exactly what the stable
`list.sort(key=..., reverse=True)` of Python produces. -/
def insertDesc (a : ℚ × Nat × ComplaintRow) :
    List (ℚ × Nat × ComplaintRow) → List (ℚ × Nat × ComplaintRow)
  | [] => [a]
  | b :: bs => if a.1 ≤ b.1 then b :: insertDesc a bs else a :: b :: bs

/-- `similarities.sort(key=lambda x: x['similarity'], reverse=True)`. -/
def sortDesc (l : List (ℚ × Nat × ComplaintRow)) : List (ℚ × Nat × ComplaintRow) :=
  l.foldl (fun acc x => insertDesc x acc) []

/-- The sorted, truncated scored candidate list
(`similarities[:top_n]` before the final projection to row data). -/
def rankedCandidates (corpus : List ComplaintRow) (complaint_text : List Char)
    (top_n : Nat) : List (ℚ × Nat × ComplaintRow) :=
  (sortDesc (scoredCandidates corpus complaint_text)).take top_n

/-- `SimpleComplaintHandler.find_similar_complaints` (default `top_n = 5`):
the row dictionaries of the ranked candidates. -/
def find_similar_complaints (corpus : List ComplaintRow) (complaint_text : List Char)
    (top_n : Nat) : List ComplaintRow :=
  if corpus = [] then []
  else (rankedCandidates corpus complaint_text top_n).map (fun x => x.2.2)

/-- One location record of `location_data` in `simple_solution.py`.
`siteName`/`rsrp105` hold `str(cell)` when the column is present (`none` when
missing, so that `row.get(col, default)` falls back to its default);
`lon`/`lat` hold the value of `float(row.get(col, 0))` (`some 0` when the
column is missing), or `none` when that conversion raises (the
`except: continue` path of the distance loop). -/
structure LocationRow where
  siteName : Option (List Char)
  rsrp105 : Option (List Char)
  lon : Option ℚ
  lat : Option ℚ
deriving DecidableEq

/-- The location-context dictionary built by `get_location_context`. -/
structure LocationContext where
  coverage_quality : List Char
  signal_distribution : List Char
deriving DecidableEq

/-- Numeric value of a decimal-digit string, e.g. `natFromDigits "123" = 123`. -/
def natFromDigits (s : List Char) : ℚ :=
  s.foldl (fun acc c => 10 * acc + ((c.toNat - 48 : Nat) : ℚ)) 0

/-- Python `float(s)` on an unsigned decimal literal `digits`, `digits.digits`,
`digits.` or `.digits`; `none` when `s` is not of this shape (then `float`
raises `ValueError`).  Exponent forms, `inf`/`nan` and digit underscores are
outside the embedded domain. -/
def parseUnsignedDec (s : List Char) : Option ℚ :=
  let ip := s.takeWhile Char.isDigit
  match s.drop ip.length with
  | [] => if ip = [] then none else some (natFromDigits ip)
  | '.' :: fpart =>
    let fp := fpart.takeWhile Char.isDigit
    if fpart.drop fp.length ≠ [] then none
    else if ip = [] ∧ fp = [] then none
    else some (natFromDigits ip + natFromDigits fp / (10 : ℚ) ^ fp.length)
  | _ => none

/-- Python `float(s)`: strip whitespace, optional sign, decimal literal. -/
def parseFloat (s : List Char) : Option ℚ :=
  match pyStrip s with
  | '-' :: r => (parseUnsignedDec r).map (fun q => -q)
  | '+' :: r => parseUnsignedDec r
  | r => parseUnsignedDec r

/-- The fixed `signal_distribution` string of `get_location_context`. -/
def signalDistributionText : List Char :=
  chars "Good coverage, Fair coverage, Poor coverage based on area signal quality"

/-- `'Good' if float(str(row.get('RSRP >-105dBm (%)', '0')).replace('%', '')) > 70
else 'Poor'`, as an `Except`: an unparsable percentage string raises
`ValueError` (this expression is outside any `try`). -/
def rsrpQuality (cell : Option (List Char)) : Except (List Char) (List Char) :=
  match parseFloat ((cell.getD (chars "0")).filter (fun c => c ≠ '%')) with
  | some q => .ok (if 70 < q then chars "Good" else chars "Poor")
  | none => .error (chars "ValueError: could not convert string to float")

/-- Build the location-context dict for a matched record. -/
def mkLocationContext (cell : Option (List Char)) :
    Except (List Char) LocationContext :=
  (rsrpQuality cell).map (fun q => ⟨q, signalDistributionText⟩)

/-- The coordinate-mode scan of `get_location_context`: running minimum over
records, keeping a record only when its distance is strictly below both the
current minimum and the `0.01` proximity threshold.  The source compares
Euclidean distances `sqrt((Δlon)² + (Δlat)²)`; the scan here compares their
squares, which is equivalent since squaring is strictly monotone on
non-negative reals.  Records whose coordinates fail to parse are skipped
(`except: continue`). -/
def closestScan (ql qa : ℚ) (rows : List LocationRow) : Option (ℚ × LocationRow) :=
  rows.foldl (fun best r =>
    match r.lon, r.lat with
    | some rl, some rla =>
      let d2 := (ql - rl) ^ 2 + (qa - rla) ^ 2
      match best with
      | none => if d2 < 1/10000 then some (d2, r) else none
      | some (bd, br) => if d2 < bd ∧ d2 < 1/10000 then some (d2, r) else some (bd, br)
    | _, _ => best) none

/-- Python `needle in hay` on strings: contiguous-substring test (the empty
needle is contained in everything). -/
def isSubstring (needle : List Char) : List Char → Bool
  | [] => needle.isEmpty
  | c :: rest => List.isPrefixOf needle (c :: rest) || isSubstring needle rest

/-- The name-mode scan of `get_location_context`: first record (in corpus
order) whose lower-cased site name contains, or is contained in, the
lower-cased query name. -/
def nameScan (locname : List Char) : List LocationRow → Option LocationRow
  | [] => none
  | r :: rest =>
    let site := pyLower (r.siteName.getD [])
    if isSubstring (pyLower locname) site || isSubstring site (pyLower locname) then
      some r
    else nameScan locname rest

/-- The coordinate mode of `get_location_context` (runs when both
`longitude` and `latitude` are present and not `None`): the closest-record
scan followed by the coverage classification.  Non-numeric coordinate values
make every in-loop distance computation raise into the per-row
`except: continue`, so the scan yields no candidate. -/
def coordMode (table : List LocationRow) (lonV latV : Option PyVal) :
    Except (List Char) (Option LocationContext) :=
  match lonV, latV with
  | some lv, some av =>
    if lv = PyVal.pnone ∨ av = PyVal.pnone then .ok none
    else if isNumeric lv ∧ isNumeric av then
      match closestScan (toQ lv) (toQ av) table with
      | some (_, r) => (mkLocationContext r.rsrp105).map some
      | none => .ok none
    else .ok none
  | _, _ => .ok none

/-- The name-mode fallback of `get_location_context`
(`if not location_context and location_name:`): absent, `None`, empty-string
and zero values are falsy and skip the branch; a truthy non-string raises
`AttributeError` at `.lower()`. -/
def nameMode (table : List LocationRow) (locV : Option PyVal) :
    Except (List Char) (Option LocationContext) :=
  match locV with
  | some (PyVal.pstr s) =>
    if s = [] then .ok none
    else
      match nameScan s table with
      | some r => (mkLocationContext r.rsrp105).map some
      | none => .ok none
  | some (PyVal.pint z) =>
    if z = 0 then .ok none
    else .error (chars "AttributeError: int object has no attribute lower")
  | some (PyVal.pfloat q) =>
    if q = 0 then .ok none
    else .error (chars "AttributeError: float object has no attribute lower")
  | _ => .ok none

/-- `SimpleComplaintHandler.get_location_context`.  Returns
`.ok none` when no context is found, `.ok (some ctx)` on a match, and
`.error _` when the percentage parse raises (or when `.lower()` is called on
a truthy non-string location name). -/
def get_location_context (table : List LocationRow) (complaint_details : CondDict) :
    Except (List Char) (Option LocationContext) :=
  if table = [] then .ok none
  else
    match coordMode table (dictGet complaint_details (chars "longitude"))
        (dictGet complaint_details (chars "latitude")) with
    | .error e => .error e
    | .ok (some ctx) => .ok (some ctx)
    | .ok none => nameMode table (dictGet complaint_details (chars "location"))

/-- `SimpleComplaintHandler.generate_solution`.  Prompt construction and the
call to the downstream text-generation service (Ollama) are external
collaborators (spec, section 1); they are passed as oracle parameters
`llmComprehensive`, `llmPattern`, `llmNew` producing the non-exact-match
solution text from the same evidence the source hands to them.  The result
pairs the solution text with the strategy label.  Exceptions escaping
`get_location_context` propagate as `.error`. -/
def generate_solution
    (llmComprehensive : CondDict → List ComplaintRow → Option LocationContext → List Char)
    (llmPattern : List Char → List ComplaintRow → List Char)
    (llmNew : CondDict → Option LocationContext → List Char)
    (corpus : List ComplaintRow) (table : List LocationRow)
    (complaint_details : CondDict) : Except (List Char) (List Char × List Char) :=
  let complaint_text :=
    match dictGet complaint_details (chars "complaint") with
    | some (PyVal.pstr s) => s
    | _ => []
  let fallThrough : Except (List Char) (List Char × List Char) :=
    match get_location_context table complaint_details with
    | .error e => .error e
    | .ok lc =>
      let sims := find_similar_complaints corpus complaint_text 5
      if sims = [] then .ok (llmNew complaint_details lc, chars "new_complaint")
      else if lc.isSome ∧ 3 ≤ sims.length then
        .ok (llmComprehensive complaint_details sims lc, chars "comprehensive_analysis")
      else .ok (llmPattern complaint_text sims, chars "pattern_analysis")
  match find_exact_match corpus complaint_text complaint_details with
  | some s => if s = [] then fallThrough else .ok (s, chars "exact_match")
  | none => fallThrough

/-- One record of the site table read by `backend/app/location.py`
(`excel_data`); the route indexes columns directly, so all fields are
present. -/
structure SiteRow where
  siteName : List Char
  rsrp1 : List Char
  rsrp2 : List Char
  rsrp3 : List Char
  rsrpBelow : List Char
  lat : ℚ
  lon : ℚ
deriving DecidableEq

/-- The `site_info` dictionary built for each record in `get_location_data`. -/
structure SiteInfo where
  site_name : List Char
  rsrp_range_1 : List Char
  rsrp_range_2 : List Char
  rsrp_range_3 : List Char
  rsrp_below_115 : List Char
  distance_km : ℚ
deriving DecidableEq

/-- The `site_info` of one record at a given distance. -/
def siteInfoOf (dist : ℚ) (r : SiteRow) : SiteInfo :=
  ⟨r.siteName, r.rsrp1, r.rsrp2, r.rsrp3, r.rsrpBelow, dist⟩

/-- `get_location_data` from `backend/app/location.py` (the nearest-site
lookup).  `haversine_distance` is real-valued trigonometry
(`math.sin`/`cos`/`atan2` over ℝ); it is abstracted as the oracle parameter
`hav`, and every property proved about this definition holds for an
arbitrary oracle.  Returns the nearest site and the sites within 2 km
(falling back to just the nearest when none are within radius), or a
not-found error when the table is empty. -/
def get_location_data (hav : ℚ → ℚ → ℚ → ℚ → ℚ) (table : List SiteRow)
    (lat lon : ℚ) : Except (List Char) (SiteInfo × List SiteInfo) :=
  let scan := table.foldl
    (fun (acc : Option (ℚ × SiteInfo) × List SiteInfo) r =>
      let d := hav lat lon r.lat r.lon
      let info := siteInfoOf d r
      let best :=
        match acc.1 with
        | none => some (d, info)
        | some (bd, bi) => if d < bd then some (d, info) else some (bd, bi)
      let nearby := if d ≤ 2 then acc.2 ++ [info] else acc.2
      (best, nearby))
    (none, [])
  match scan.1 with
  | some (_, nearest) =>
    .ok (nearest, if scan.2 = [] then [nearest] else scan.2)
  | none => .error (chars "No nearby site found.")

/-! ## Spec-described signature builder (for the refinement claims) -/

/-- The Signature Builder pipeline exactly as the spec's C7 sentence orders
it: location-token normalization FIRST, lower-casing/trimming AFTERWARDS,
then the `'|'`-joined sorted condition pairs after a separator. -/
def spec_signature_claimed (t : List Char) (c : CondDict) : List Char :=
  pyStrip (pyLower (remove_specific_locations t)) ++
    '|' :: (if c = [] then [] else joinBar (sortAsc (condition_values c)))

/-- The Signature Builder pipeline as described by the spec with the order
corrected to match the source (lower-case and trim first, normalize
afterwards): collect the allow-listed `"key:value"` pairs, sort them
lexicographically, join with `'|'`, and append after the canonical text and
a separator. -/
def spec_signature_amended (t : List Char) (c : CondDict) : List Char :=
  let canonText := remove_specific_locations (pyStrip (pyLower t))
  let keptPairs :=
    (all_conditions.map (fun k => (k, dictGet c k))).filterMap
      (fun kv => pairFor kv.1 kv.2)
  canonText ++ chars "|" ++ joinBar (sortAsc keptPairs)

/-! ## Claim C8: empty-data degradation -/

/-- C8: with an empty complaint corpus, `find_exact_match` returns `none`
and `find_similar_complaints` returns the empty list; with an empty location
table, `get_location_context` returns `none` and the nearest-site lookup
(`get_location_data`) reports not-found; none of these raises (the
`Except`-valued ones return `.ok`, resp. the modelled `ValueError`-free
not-found error response of the route). -/
theorem empty_data_degrades_to_no_result :
    (∀ t c, find_exact_match [] t c = none) ∧
    (∀ t n, find_similar_complaints [] t n = []) ∧
    (∀ d, get_location_context [] d = Except.ok none) ∧
    (∀ hav lat lon,
      get_location_data hav [] lat lon = Except.error (chars "No nearby site found.")) := by
  refine ⟨fun t c => rfl, fun t n => rfl, fun d => rfl, fun hav lat lon => rfl⟩

/-! ## Claim C9: idempotence of the normalizer (refuted, then amended) -/

/-- C9 counterexample: `remove_specific_locations` is not idempotent.  On
`"a, , ,b"` one application yields `"a,,b"` (the comma-cleanup passes create
a fresh `",,"` adjacency), and a second application yields `"a,b"`. -/
theorem remove_specific_locations_not_idempotent :
    remove_specific_locations (chars "a, , ,b") = chars "a,,b" ∧
    remove_specific_locations (remove_specific_locations (chars "a, , ,b")) =
      chars "a,b" ∧
    remove_specific_locations (remove_specific_locations (chars "a, , ,b")) ≠
      remove_specific_locations (chars "a, , ,b") := by
  refine ⟨by decide, by decide, by decide⟩

/-! ## Claim C10: location key and exact match (refuted, then amended) -/

/-- The C10 corpus record whose `Indoor/Outdoor` cell embeds a `'|'`
separator followed by a `location:` pair. -/
def injectionRow : ComplaintRow :=
  { issue := some (chars "signal issue"), solution := some (chars "fix"),
    device := none, sigStrength := none, quality := none, siteKpi := none,
    pastData := none, indoorOutdoor := some (chars "x|location:zz"),
    lon := none, lat := none }

/-- The C10 incoming conditions: a non-sentinel location name `"zz"` plus an
indoor/outdoor value `"x"`. -/
def injectionConds : CondDict :=
  [(chars "indoor_outdoor_coverage_issue", PyVal.pstr (chars "x")),
   (chars "location", PyVal.pstr (chars "zz"))]

/-- C10 counterexample: the incoming conditions carry the non-sentinel
location name `"zz"` (it contributes the pair `"location:zz"` to the
signature), yet `find_exact_match` does NOT return `none` on every corpus:
a historical record whose indoor/outdoor cell is `"x|location:zz"` joins to
the same signature input, and the match fires. -/
theorem find_exact_match_location_key_collision :
    pairFor (chars "location") (dictGet injectionConds (chars "location")) =
      some (chars "location:zz") ∧
    find_exact_match [injectionRow] (chars "signal issue") injectionConds =
      some (chars "1. fix\n\n[Solution type: exact_match]") := by
  refine ⟨by decide, by decide⟩

/-! ## Claim C6: similarity symmetry (refuted, then amended) -/

/-- C6 counterexample: the similarity score of `find_similar_complaints` is
not symmetric in the two roles, and `score(A, A) = 1` fails for
`A = "ABC123 down"` although `A`'s token set is non-empty: the incoming role
lower-cases before stripping location tokens (so `ABC123` survives as
`abc123`), while the record role strips first (so `ABC123` becomes
`the area`). -/
theorem simScore_not_symmetric :
    simScore (chars "ABC123 down") (chars "abc123 down") = 1 ∧
    simScore (chars "abc123 down") (chars "ABC123 down") = 1/4 ∧
    simScore (chars "ABC123 down") (chars "abc123 down") ≠
      simScore (chars "abc123 down") (chars "ABC123 down") ∧
    (complaintTokens (chars "ABC123 down")).Nonempty ∧
    simScore (chars "ABC123 down") (chars "ABC123 down") ≠ 1 := by
  have h1 : simScore (chars "ABC123 down") (chars "abc123 down") = 1 := by
    rw [simScore,
      show ((complaintTokens (chars "ABC123 down") ∩
        issueTokens (chars "abc123 down")).card) = 2 from by decide,
      show ((complaintTokens (chars "ABC123 down") ∪
        issueTokens (chars "abc123 down")).card) = 2 from by decide]
    norm_num
  have h2 : simScore (chars "abc123 down") (chars "ABC123 down") = 1/4 := by
    rw [simScore,
      show ((complaintTokens (chars "abc123 down") ∩
        issueTokens (chars "ABC123 down")).card) = 1 from by decide,
      show ((complaintTokens (chars "abc123 down") ∪
        issueTokens (chars "ABC123 down")).card) = 4 from by decide]
    norm_num
  have h3 : simScore (chars "ABC123 down") (chars "ABC123 down") = 1/4 := by
    rw [simScore,
      show ((complaintTokens (chars "ABC123 down") ∩
        issueTokens (chars "ABC123 down")).card) = 1 from by decide,
      show ((complaintTokens (chars "ABC123 down") ∪
        issueTokens (chars "ABC123 down")).card) = 4 from by decide]
    norm_num
  refine ⟨h1, h2, ?_, ?_, ?_⟩
  · rw [h1, h2]; norm_num
  · exact ⟨chars "down", by decide⟩
  · rw [h3]; norm_num

/-! ## Claim C5: unparsable percentage fields (refuted, then amended) -/

/-- A location record whose `RSRP >-105dBm (%)` cell is present but not a
number after removing percent signs. -/
def badPercentRow : LocationRow :=
  { siteName := some (chars "SiteX"), rsrp105 := some (chars "n/a%"),
    lon := some 80, lat := some 7 }

/-- The complaint details placing the query exactly at `badPercentRow`. -/
def badPercentDetails : CondDict :=
  [(chars "longitude", PyVal.pfloat 80), (chars "latitude", PyVal.pfloat 7)]

/-- C5 counterexample: for a matched record whose percentage field is present
but unparsable, `get_location_context` does NOT treat the value as 0 — the
`float(...)` conversion sits outside any `try` block, so the call raises
`ValueError` instead of returning normally with a `'Poor'` classification. -/
theorem get_location_context_raises_on_unparsable_percent :
    get_location_context [badPercentRow] badPercentDetails =
      Except.error (chars "ValueError: could not convert string to float") := by
  have hscan : closestScan 80 7 [badPercentRow] = some (0, badPercentRow) := by
    simp only [closestScan, badPercentRow, List.foldl]
    norm_num
  have hcoord : coordMode [badPercentRow] (some (PyVal.pfloat 80)) (some (PyVal.pfloat 7)) =
      Except.error (chars "ValueError: could not convert string to float") := by
    rw [coordMode]
    rw [if_neg (by simp), if_pos ⟨rfl, rfl⟩]
    rw [show toQ (PyVal.pfloat 80) = 80 from rfl, show toQ (PyVal.pfloat 7) = 7 from rfl,
      hscan]
    rfl
  rw [get_location_context, if_neg (by simp),
    show dictGet badPercentDetails (chars "longitude") = some (PyVal.pfloat 80) from rfl,
    show dictGet badPercentDetails (chars "latitude") = some (PyVal.pfloat 7) from rfl,
    hcoord]

/-- With the percentage field absent, `row.get(...)` falls back to `'0'`,
which parses to `0` and classifies as `'Poor'`. -/
theorem rsrpQuality_none_eval : rsrpQuality none = Except.ok (chars "Poor") := by
  have hp : parseFloat (chars "0") = some (natFromDigits (chars "0")) := by
    rw [parseFloat, show pyStrip (chars "0") = chars "0" from by decide,
      show (chars "0") = ['0'] from rfl]
    rfl
  have h0 : natFromDigits (chars "0") = 0 := by
    show natFromDigits ['0'] = 0
    simp only [natFromDigits, List.foldl]
    rw [show '0'.toNat - 48 = 0 from rfl]
    norm_num
  rw [rsrpQuality,
    show ((none : Option (List Char)).getD (chars "0")).filter (fun c => c ≠ '%') =
      chars "0" from by decide,
    hp, h0]
  show Except.ok (if (70:ℚ) < 0 then chars "Good" else chars "Poor") = Except.ok (chars "Poor")
  rw [if_neg (by norm_num : ¬ (70:ℚ) < 0)]

/-- C5 amended: when the matched location record's percentage field is
ABSENT (the `row.get(col, '0')` default applies), `get_location_context`
treats the value as `'0'`, classifies the coverage as `'Poor'`, and returns
normally; when the field is present but unparsable, the call raises instead
(see the counterexample above). -/
theorem get_location_context_missing_percent_poor :
    ∀ (table : List LocationRow) (d : CondDict) (ql qa d2 : ℚ) (r : LocationRow),
      table ≠ [] →
      dictGet d (chars "longitude") = some (PyVal.pfloat ql) →
      dictGet d (chars "latitude") = some (PyVal.pfloat qa) →
      closestScan ql qa table = some (d2, r) →
      r.rsrp105 = none →
      get_location_context table d =
        Except.ok (some ⟨chars "Poor", signalDistributionText⟩) := by
  intro table d ql qa d2 r htab hlon hlat hscan hr
  have hq : mkLocationContext r.rsrp105 =
      Except.ok ⟨chars "Poor", signalDistributionText⟩ := by
    rw [hr, mkLocationContext, rsrpQuality_none_eval]
    rfl
  have hcoord : coordMode table (some (PyVal.pfloat ql)) (some (PyVal.pfloat qa)) =
      Except.ok (some ⟨chars "Poor", signalDistributionText⟩) := by
    rw [coordMode]
    rw [if_neg (by simp), if_pos ⟨rfl, rfl⟩]
    simp only [toQ]
    rw [hscan]
    show Except.map some (mkLocationContext r.rsrp105) = _
    rw [hq]
    rfl
  rw [get_location_context, if_neg htab, hlon, hlat, hcoord]

/-- A location record with the percentage column missing entirely. -/
def missingPercentRow : LocationRow :=
  { siteName := some (chars "SiteY"), rsrp105 := none,
    lon := some 81, lat := some 8 }

/-- Witness for the amended C5 theorem at a concrete table and query. -/
theorem get_location_context_missing_percent_poor_witness :
    get_location_context [missingPercentRow]
      [(chars "longitude", PyVal.pfloat 81), (chars "latitude", PyVal.pfloat 8)] =
      Except.ok (some ⟨chars "Poor", signalDistributionText⟩) := by
  apply get_location_context_missing_percent_poor _ _ 81 8 0 missingPercentRow
  · simp
  · rfl
  · rfl
  · simp only [closestScan, missingPercentRow, List.foldl]
    norm_num
  · rfl

/-! ## Claim C4: the similarity retriever -/

/-- Strict ranking order produced by the stable descending sort: either a
strictly larger score, or an equal score and a strictly smaller corpus
index. -/
def candGT (a b : ℚ × Nat × ComplaintRow) : Prop :=
  b.1 < a.1 ∨ (a.1 = b.1 ∧ a.2.1 < b.2.1)

theorem mem_insertDesc {a x : ℚ × Nat × ComplaintRow}
    {l : List (ℚ × Nat × ComplaintRow)} :
    x ∈ insertDesc a l ↔ x = a ∨ x ∈ l := by
  induction l with
  | nil => simp [insertDesc]
  | cons b bs ih =>
    simp only [insertDesc]
    split
    · simp only [List.mem_cons, ih]
      tauto
    · simp only [List.mem_cons]

theorem insertDesc_perm (a : ℚ × Nat × ComplaintRow)
    (l : List (ℚ × Nat × ComplaintRow)) : List.Perm (insertDesc a l) (a :: l) := by
  induction l with
  | nil => simp [insertDesc]
  | cons b bs ih =>
    simp only [insertDesc]
    split
    · exact (ih.cons b).trans (List.Perm.swap a b bs)
    · exact List.Perm.refl _

theorem foldl_insertDesc_perm (l : List (ℚ × Nat × ComplaintRow)) :
    ∀ acc, List.Perm (l.foldl (fun acc x => insertDesc x acc) acc) (acc ++ l) := by
  induction l with
  | nil => intro acc; simp
  | cons x xs ih =>
    intro acc
    have h1 : (x :: xs).foldl (fun acc x => insertDesc x acc) acc
        = xs.foldl (fun acc x => insertDesc x acc) (insertDesc x acc) := rfl
    rw [h1]
    exact ((ih _).trans
      (((insertDesc_perm x acc).append_right xs).trans List.perm_middle.symm))

/-- `sortDesc` permutes its input. -/
theorem sortDesc_perm (l : List (ℚ × Nat × ComplaintRow)) :
    List.Perm (sortDesc l) l :=
  foldl_insertDesc_perm l []

theorem candGT_score_le {a b : ℚ × Nat × ComplaintRow} (h : candGT a b) :
    b.1 ≤ a.1 := by
  rcases h with h | ⟨h, _⟩
  · exact le_of_lt h
  · exact le_of_eq h.symm

theorem insertDesc_pairwise {a : ℚ × Nat × ComplaintRow}
    {l : List (ℚ × Nat × ComplaintRow)} (hl : l.Pairwise candGT)
    (ha : ∀ b ∈ l, b.2.1 < a.2.1) : (insertDesc a l).Pairwise candGT := by
  induction l with
  | nil => simp [insertDesc, List.pairwise_cons]
  | cons b bs ih =>
    rw [List.pairwise_cons] at hl
    simp only [insertDesc]
    split
    · rename_i hab
      rw [List.pairwise_cons]
      refine ⟨?_, ih hl.2 (fun x hx => ha x (List.mem_cons_of_mem b hx))⟩
      intro x hx
      rcases mem_insertDesc.mp hx with rfl | hx
      · rcases lt_or_eq_of_le hab with h | h
        · exact Or.inl h
        · exact Or.inr ⟨h.symm, ha b (List.mem_cons_self b bs)⟩
      · exact hl.1 x hx
    · rename_i hab
      push_neg at hab
      rw [List.pairwise_cons]
      refine ⟨?_, List.pairwise_cons.mpr hl⟩
      intro x hx
      rcases List.mem_cons.mp hx with rfl | hx
      · exact Or.inl hab
      · exact Or.inl (lt_of_le_of_lt (candGT_score_le (hl.1 x hx)) hab)

theorem foldl_insertDesc_pairwise (l : List (ℚ × Nat × ComplaintRow)) :
    ∀ acc, acc.Pairwise candGT → (∀ x ∈ acc, ∀ y ∈ l, x.2.1 < y.2.1) →
      l.Pairwise (fun a b => a.2.1 < b.2.1) →
      (l.foldl (fun acc x => insertDesc x acc) acc).Pairwise candGT := by
  induction l with
  | nil => exact fun acc h _ _ => h
  | cons y ys ih =>
    intro acc hacc hcross hl
    rw [List.pairwise_cons] at hl
    refine ih (insertDesc y acc) ?_ ?_ hl.2
    · exact insertDesc_pairwise hacc
        (fun b hb => hcross b hb y (List.mem_cons_self y ys))
    · intro x hx z hz
      rcases mem_insertDesc.mp hx with rfl | hx
      · exact hl.1 z hz
      · exact hcross x hx z (List.mem_cons_of_mem y hz)

theorem mem_enumFrom_le {n : Nat} {l : List ComplaintRow}
    {x : Nat × ComplaintRow} (hx : x ∈ List.enumFrom n l) : n ≤ x.1 := by
  induction l generalizing n with
  | nil => cases hx
  | cons a l ih =>
    rcases List.mem_cons.mp hx with rfl | hx
    · exact le_refl n
    · exact le_trans (Nat.le_succ n) (ih hx)

theorem enumFrom_pairwise (n : Nat) (l : List ComplaintRow) :
    (List.enumFrom n l).Pairwise (fun a b => a.1 < b.1) := by
  induction l generalizing n with
  | nil => exact List.Pairwise.nil
  | cons a l ih =>
    rw [List.enumFrom, List.pairwise_cons]
    exact ⟨fun x hx => lt_of_lt_of_le (Nat.lt_succ_self n) (mem_enumFrom_le hx), ih (n + 1)⟩

/-- The scored candidates carry strictly increasing corpus indices. -/
theorem scoredCandidates_pairwise_idx (corpus : List ComplaintRow) (t : List Char) :
    (scoredCandidates corpus t).Pairwise (fun a b => a.2.1 < b.2.1) := by
  apply List.Pairwise.filterMap
    (f := fun ir : Nat × ComplaintRow =>
      let s := simScore t (ir.2.issue.getD [])
      if 1/10 < s then some (s, ir.1, normalizeRowData ir.2) else none)
    (R := fun a b : Nat × ComplaintRow => a.1 < b.1)
  · intro a b hab x hx y hy
    simp only at hx hy
    split at hx
    · cases hx
      split at hy
      · cases hy
        exact hab
      · cases hy
    · cases hx
  · exact enumFrom_pairwise 0 corpus

/-- Every scored candidate's score strictly exceeds the `0.1` threshold. -/
theorem scoredCandidates_score_gt (corpus : List ComplaintRow) (t : List Char) :
    ∀ x ∈ scoredCandidates corpus t, 1/10 < x.1 := by
  intro x hx
  rcases List.mem_filterMap.mp hx with ⟨ir, _, hir⟩
  simp only at hir
  split at hir
  · cases hir
    assumption
  · cases hir

theorem mem_enumFrom_snd {n : Nat} {l : List ComplaintRow}
    {x : Nat × ComplaintRow} (hx : x ∈ List.enumFrom n l) : x.2 ∈ l := by
  induction l generalizing n with
  | nil => cases hx
  | cons a l ih =>
    rcases List.mem_cons.mp hx with rfl | hx
    · exact List.mem_cons_self a l
    · exact List.mem_cons_of_mem a (ih hx)

/-- C4: `find_similar_complaints` is the projection of the ranked candidate
list; it returns at most `top_n` records; every ranked candidate comes from
the threshold filter with a score strictly above `0.1`; scores are
non-increasing down the ranked list, and candidates with equal scores keep
their original corpus order (strictly increasing corpus indices); an empty
corpus, or a corpus in which no record's score exceeds the threshold, yields
the empty list. -/
theorem find_similar_complaints_ranked_spec :
    ∀ (corpus : List ComplaintRow) (t : List Char) (n : Nat),
      find_similar_complaints corpus t n =
        (rankedCandidates corpus t n).map (fun x => x.2.2) ∧
      (find_similar_complaints corpus t n).length ≤ n ∧
      (∀ x ∈ rankedCandidates corpus t n,
        1/10 < x.1 ∧ x ∈ scoredCandidates corpus t) ∧
      (rankedCandidates corpus t n).Pairwise (fun a b => b.1 ≤ a.1) ∧
      (rankedCandidates corpus t n).Pairwise
        (fun a b => a.1 = b.1 → a.2.1 < b.2.1) ∧
      (corpus = [] → find_similar_complaints corpus t n = []) ∧
      ((∀ r ∈ corpus, simScore t (r.issue.getD []) ≤ 1/10) →
        find_similar_complaints corpus t n = []) := by
  intro corpus t n
  have hpairs : (sortDesc (scoredCandidates corpus t)).Pairwise candGT :=
    foldl_insertDesc_pairwise _ [] List.Pairwise.nil (by intro x hx; cases hx)
      (scoredCandidates_pairwise_idx corpus t)
  have heq : find_similar_complaints corpus t n =
      (rankedCandidates corpus t n).map (fun x => x.2.2) := by
    cases corpus with
    | nil =>
      show ([] : List ComplaintRow) =
        (rankedCandidates [] t n).map (fun x => x.2.2)
      rw [rankedCandidates, show scoredCandidates [] t = [] from rfl,
        show sortDesc [] = [] from rfl, List.take_nil, List.map_nil]
    | cons r rs => rfl
  have hmem : ∀ x ∈ rankedCandidates corpus t n, x ∈ scoredCandidates corpus t := by
    intro x hx
    exact (sortDesc_perm (scoredCandidates corpus t)).subset
      (List.take_subset n _ hx)
  refine ⟨heq, ?_, ?_, ?_, ?_, ?_, ?_⟩
  · rw [heq, List.length_map, rankedCandidates, List.length_take]
    exact min_le_left _ _
  · exact fun x hx => ⟨scoredCandidates_score_gt corpus t x (hmem x hx), hmem x hx⟩
  · exact ((hpairs.sublist (List.take_sublist n _)).imp candGT_score_le)
  · refine (hpairs.sublist (List.take_sublist n _)).imp ?_
    intro a b hab heq2
    rcases hab with h | ⟨_, h⟩
    · exact absurd heq2 (ne_of_gt h)
    · exact h
  · intro h; subst h; rfl
  · intro h
    have hscored : scoredCandidates corpus t = [] := by
      rw [scoredCandidates, List.filterMap_eq_nil_iff]
      intro ir hir
      simp only
      rw [if_neg (not_lt.mpr (h ir.2 (mem_enumFrom_snd hir)))]
    rw [heq, rankedCandidates, hscored, show sortDesc [] = [] from rfl,
      List.take_nil, List.map_nil]

/-- A one-record corpus used by concrete witnesses. -/
def simpleRow : ComplaintRow :=
  { issue := some (chars "web down"), solution := some (chars "reset"),
    device := none, sigStrength := none, quality := none, siteKpi := none,
    pastData := none, indoorOutdoor := none, lon := none, lat := none }

theorem simScore_webdown_self : simScore (chars "web down") (chars "web down") = 1 := by
  rw [simScore,
    show ((complaintTokens (chars "web down") ∩
      issueTokens (chars "web down")).card) = 2 from by decide,
    show ((complaintTokens (chars "web down") ∪
      issueTokens (chars "web down")).card) = 2 from by decide]
  norm_num

theorem rankedCandidates_simple :
    rankedCandidates [simpleRow] (chars "web down") 5 =
      [((1:ℚ), 0, normalizeRowData simpleRow)] := by
  have hval : simScore (chars "web down") ((simpleRow.issue).getD []) = 1 := by
    rw [show (simpleRow.issue).getD [] = chars "web down" from rfl,
      simScore_webdown_self]
  have hscored : scoredCandidates [simpleRow] (chars "web down") =
      [((1:ℚ), 0, normalizeRowData simpleRow)] := by
    rw [scoredCandidates, show List.enum [simpleRow] = [(0, simpleRow)] from rfl,
      List.filterMap_cons]
    simp only [List.filterMap_nil, hval]
    rw [if_pos (by norm_num : (1:ℚ)/10 < (1:ℚ))]
  rw [rankedCandidates, hscored]
  rfl

/-- Witness for the C4 theorem at a concrete corpus, query and `top_n`. -/
theorem find_similar_complaints_ranked_witness :
    (find_similar_complaints [simpleRow] (chars "web down") 5).length ≤ 5 ∧
    ((1:ℚ), 0, normalizeRowData simpleRow) ∈
      scoredCandidates [simpleRow] (chars "web down") ∧
    find_similar_complaints [] (chars "web down") 5 = [] ∧
    find_similar_complaints [simpleRow] (chars "zzz") 5 = [] := by
  have hx : ((1:ℚ), 0, normalizeRowData simpleRow) ∈
      rankedCandidates [simpleRow] (chars "web down") 5 := by
    rw [rankedCandidates_simple]
    exact List.mem_cons_self _ _
  refine ⟨(find_similar_complaints_ranked_spec [simpleRow] (chars "web down") 5).2.1,
    ((find_similar_complaints_ranked_spec [simpleRow] (chars "web down") 5).2.2.1 _ hx).2,
    (find_similar_complaints_ranked_spec [] (chars "web down") 5).2.2.2.2.2.1 rfl,
    (find_similar_complaints_ranked_spec [simpleRow] (chars "zzz") 5).2.2.2.2.2.2 ?_⟩
  intro r hr
  rcases List.mem_singleton.mp hr with rfl
  rw [show (simpleRow.issue).getD [] = chars "web down" from rfl]
  rw [simScore,
    show ((complaintTokens (chars "zzz") ∩
      issueTokens (chars "web down")).card) = 0 from by decide,
    show ((complaintTokens (chars "zzz") ∪
      issueTokens (chars "web down")).card) = 3 from by decide]
  norm_num

/-! ## Lexicographic order on strings and `sorted` correctness -/

theorem listLtb_irrefl (a : List Char) : listLtb a a = false := by
  induction a with
  | nil => rfl
  | cons c cs ih =>
    simp only [listLtb, lt_irrefl, if_false, ih]

theorem listLtb_asymm {a b : List Char} (h : listLtb a b = true) :
    listLtb b a = false := by
  induction a generalizing b with
  | nil =>
    cases b with
    | nil => simp [listLtb] at h
    | cons d ds => rfl
  | cons c cs ih =>
    cases b with
    | nil => simp [listLtb] at h
    | cons d ds =>
      rcases lt_trichotomy c d with hcd | hcd | hcd
      · simp only [listLtb, if_neg (lt_asymm hcd), if_pos hcd]
      · subst hcd
        simp only [listLtb, if_neg (lt_irrefl c)] at h ⊢
        exact ih h
      · simp only [listLtb, if_neg (lt_asymm hcd), if_pos hcd] at h
        exact absurd h (by decide)

theorem listLtb_total_eq {a b : List Char} (hab : listLtb a b = false)
    (hba : listLtb b a = false) : a = b := by
  induction a generalizing b with
  | nil =>
    cases b with
    | nil => rfl
    | cons d ds => simp [listLtb] at hab
  | cons c cs ih =>
    cases b with
    | nil => simp [listLtb] at hba
    | cons d ds =>
      rcases lt_trichotomy c d with hcd | hcd | hcd
      · simp only [listLtb, if_pos hcd] at hab
        exact absurd hab (by decide)
      · subst hcd
        simp only [listLtb, if_neg (lt_irrefl c)] at hab hba
        rw [ih hab hba]
      · simp only [listLtb, if_pos hcd, if_neg (lt_asymm hcd)] at hba
        exact absurd hba (by decide)

theorem listLtb_trans {a b c : List Char} (hab : listLtb a b = true)
    (hbc : listLtb b c = true) : listLtb a c = true := by
  induction a generalizing b c with
  | nil =>
    cases c with
    | nil =>
      cases b with
      | nil => exact hab
      | cons e es => simp [listLtb] at hbc
    | cons f fs => rfl
  | cons x xs ih =>
    cases b with
    | nil => simp [listLtb] at hab
    | cons y ys =>
      cases c with
      | nil => simp [listLtb] at hbc
      | cons z zs =>
        rcases lt_trichotomy x y with hxy | hxy | hxy
        · rcases lt_trichotomy y z with hyz | hyz | hyz
          · simp only [listLtb, if_pos (lt_trans hxy hyz)]
          · subst hyz; simp only [listLtb, if_pos hxy]
          · simp only [listLtb, if_neg (lt_asymm hyz), if_pos hyz] at hbc
            exact absurd hbc (by decide)
        · subst hxy
          rcases lt_trichotomy x z with hxz | hxz | hxz
          · simp only [listLtb, if_pos hxz]
          · subst hxz
            simp only [listLtb, if_neg (lt_irrefl x)] at hab hbc ⊢
            exact ih hab hbc
          · simp only [listLtb, if_neg (lt_asymm hxz), if_pos hxz] at hbc
            exact absurd hbc (by decide)
        · simp only [listLtb, if_neg (lt_asymm hxy), if_pos hxy] at hab
          exact absurd hab (by decide)

theorem mem_insertAsc {a x : List Char} {l : List (List Char)} :
    x ∈ insertAsc a l ↔ x = a ∨ x ∈ l := by
  induction l with
  | nil => simp [insertAsc]
  | cons b bs ih =>
    simp only [insertAsc]
    split
    · simp only [List.mem_cons]
    · simp only [List.mem_cons, ih]
      tauto

theorem insertAsc_perm (a : List Char) (l : List (List Char)) :
    List.Perm (insertAsc a l) (a :: l) := by
  induction l with
  | nil => simp [insertAsc]
  | cons b bs ih =>
    simp only [insertAsc]
    split
    · exact List.Perm.refl _
    · exact (ih.cons b).trans (List.Perm.swap a b bs)

theorem foldl_insertAsc_perm (l : List (List Char)) :
    ∀ acc, List.Perm (l.foldl (fun acc x => insertAsc x acc) acc) (acc ++ l) := by
  induction l with
  | nil => intro acc; simp
  | cons x xs ih =>
    intro acc
    have h1 : (x :: xs).foldl (fun acc x => insertAsc x acc) acc
        = xs.foldl (fun acc x => insertAsc x acc) (insertAsc x acc) := rfl
    rw [h1]
    exact ((ih _).trans
      (((insertAsc_perm x acc).append_right xs).trans List.perm_middle.symm))

/-- `sortAsc` permutes its input. -/
theorem sortAsc_perm (l : List (List Char)) : List.Perm (sortAsc l) l :=
  foldl_insertAsc_perm l []

/-- The non-strict order in which `sorted` leaves the pair list. -/
def strLe (a b : List Char) : Prop :=
  listLtb b a = false

instance : IsAntisymm (List Char) strLe :=
  ⟨fun _ _ h1 h2 => listLtb_total_eq h2 h1⟩

theorem insertAsc_pairwise {a : List Char} {l : List (List Char)}
    (hl : l.Pairwise strLe) : (insertAsc a l).Pairwise strLe := by
  induction l with
  | nil => simp [insertAsc, List.pairwise_cons]
  | cons b bs ih =>
    rw [List.pairwise_cons] at hl
    simp only [insertAsc]
    split
    · rename_i hab
      rw [List.pairwise_cons]
      refine ⟨?_, List.pairwise_cons.mpr hl⟩
      intro x hx
      rcases List.mem_cons.mp hx with rfl | hx
      · exact listLtb_asymm hab
      · show listLtb x a = false
        cases hxa : listLtb x a
        · rfl
        · have hxb : listLtb x b = false := hl.1 x hx
          rw [listLtb_trans hxa hab] at hxb
          cases hxb
    · rename_i hab
      rw [Bool.not_eq_true] at hab
      rw [List.pairwise_cons]
      refine ⟨?_, ih hl.2⟩
      intro x hx
      rcases mem_insertAsc.mp hx with rfl | hx
      · exact hab
      · exact hl.1 x hx

theorem foldl_insertAsc_pairwise (l : List (List Char)) :
    ∀ acc, acc.Pairwise strLe →
      (l.foldl (fun acc x => insertAsc x acc) acc).Pairwise strLe := by
  induction l with
  | nil => exact fun acc h => h
  | cons x xs ih => exact fun acc hacc => ih _ (insertAsc_pairwise hacc)

/-- `sorted` leaves the list sorted (non-strictly ascending). -/
theorem sortAsc_sorted (l : List (List Char)) : (sortAsc l).Pairwise strLe :=
  foldl_insertAsc_pairwise l [] List.Pairwise.nil

/-- `k1` precedes `k2` with a strict character difference before either
string ends (so the comparison of `k1 ++ x` against `k2 ++ y` is decided
inside the key region, whatever `x` and `y` are). -/
def keyLtb : List Char → List Char → Bool
  | [], _ => false
  | _, [] => false
  | c1 :: t1, c2 :: t2 =>
    if c1 < c2 then true else if c2 < c1 then false else keyLtb t1 t2

theorem keyLtb_append {k1 k2 : List Char} (h : keyLtb k1 k2 = true) :
    ∀ x y, listLtb (k1 ++ x) (k2 ++ y) = true := by
  induction k1 generalizing k2 with
  | nil => simp [keyLtb] at h
  | cons c t1 ih =>
    cases k2 with
    | nil => simp [keyLtb] at h
    | cons d t2 =>
      intro x y
      rcases lt_trichotomy c d with hcd | hcd | hcd
      · simp only [List.cons_append, listLtb, if_pos hcd]
      · subst hcd
        simp only [keyLtb, if_neg (lt_irrefl c)] at h
        simp only [List.cons_append, listLtb, if_neg (lt_irrefl c)]
        exact ih h x y
      · simp only [keyLtb, if_neg (lt_asymm hcd), if_pos hcd] at h
        exact absurd h (by decide)

/-- The allow-listed keys in ascending lexicographic order. -/
def ordKeys : List (List Char) :=
  [chars "device_type_settings_vpn_apn", chars "indoor_outdoor_coverage_issue",
   chars "latitude", chars "location", chars "longitude",
   chars "past_data_analysis", chars "quality_of_signal",
   chars "signal_strength", chars "site_kpi_alarm"]

theorem ordKeys_perm : List.Perm all_conditions ordKeys := by decide

theorem ordKeys_pairwise : ordKeys.Pairwise (fun a b => keyLtb a b = true) := by decide

/-- Every included pair starts with its key followed by a colon. -/
theorem pairFor_shape {k : List Char} {v : Option PyVal} {p : List Char}
    (h : pairFor k v = some p) : ∃ t, p = k ++ ':' :: t := by
  rw [pairFor.eq_def] at h
  rcases v with _ | v
  · cases h
  · repeat' split at h
    all_goals cases h
    all_goals exact ⟨_, rfl⟩

/-- The sorted pair list of the Signature Builder lists the included pairs
in the fixed lexicographic key order, independently of the values: sorting
never interleaves values across keys because no allow-listed key is a prefix
of another. -/
theorem sortAsc_condition_values (c : CondDict) :
    sortAsc (condition_values c) =
      ordKeys.filterMap (fun k => pairFor k (dictGet c k)) := by
  apply List.eq_of_perm_of_sorted (r := strLe)
  · exact (sortAsc_perm _).trans (ordKeys_perm.filterMap _)
  · exact sortAsc_sorted _
  · apply List.Pairwise.filterMap (fun k => pairFor k (dictGet c k))
      (R := fun a b => keyLtb a b = true)
    · intro k1 k2 h12 x hx y hy
      obtain ⟨t1, rfl⟩ := pairFor_shape hx
      obtain ⟨t2, rfl⟩ := pairFor_shape hy
      exact listLtb_asymm (keyLtb_append h12 (':' :: t1) (':' :: t2))
    · exact ordKeys_pairwise

/-! ## Splitting `'|'.join` around one slot -/

/-- What follows the head segment inside a `'|'`-join. -/
def barTail : List (List Char) → List Char
  | [] => []
  | y :: ys => '|' :: joinBar (y :: ys)

theorem joinBar_head_tail (y : List Char) (ys : List (List Char)) :
    joinBar (y :: ys) = y ++ barTail ys := by
  cases ys with
  | nil => simp [joinBar, joinWith, barTail]
  | cons z zs => simp [joinBar, joinWith, barTail]

/-- The text a prefix `X` of segments contributes to a `'|'`-join that
continues after it. -/
def preJoin (l : List (List Char)) : List Char :=
  (l.map (fun p => p ++ ['|'])).flatten

theorem joinBar_split (X : List (List Char)) (p : List Char) (Y : List (List Char)) :
    joinBar (X ++ p :: Y) = preJoin X ++ (p ++ barTail Y) := by
  induction X with
  | nil => simp [preJoin, joinBar_head_tail]
  | cons x xs ih =>
    have hne : xs ++ p :: Y ≠ [] := by simp
    calc joinBar (x :: (xs ++ p :: Y))
        = x ++ barTail (xs ++ p :: Y) := joinBar_head_tail x _
      _ = x ++ '|' :: joinBar (xs ++ p :: Y) := by
          cases h : xs ++ p :: Y with
          | nil => exact absurd h hne
          | cons z zs => rw [barTail]
      _ = preJoin (x :: xs) ++ (p ++ barTail Y) := by
          rw [ih, preJoin, preJoin, List.map_cons, List.flatten_cons]
          simp [List.append_assoc]

theorem preJoin_eq_joinBar {X : List (List Char)} (hX : X ≠ []) :
    preJoin X = joinBar X ++ ['|'] := by
  induction X with
  | nil => exact absurd rfl hX
  | cons x xs ih =>
    cases xs with
    | nil => simp [preJoin, joinBar, joinWith]
    | cons y ys =>
      rw [preJoin, List.map_cons, List.flatten_cons, joinBar_head_tail, barTail]
      rw [show (List.map (fun p => p ++ ['|']) (y :: ys)).flatten = preJoin (y :: ys) from rfl]
      rw [ih (by simp)]
      simp

theorem joinBar_append_of_ne {X Y : List (List Char)} (hY : Y ≠ []) :
    joinBar (X ++ Y) = preJoin X ++ joinBar Y := by
  cases Y with
  | nil => exact absurd rfl hY
  | cons y ys => rw [joinBar_split, joinBar_head_tail]

/-- Changing the segment in one slot (same surrounding segments) changes the
join. -/
theorem joinBar_slot_some_some {X Y : List (List Char)} {pA pB : List Char}
    (h : pA ≠ pB) : joinBar (X ++ pA :: Y) ≠ joinBar (X ++ pB :: Y) := by
  rw [joinBar_split, joinBar_split]
  intro heq
  exact h (List.append_cancel_right (List.append_cancel_left heq))

/-- Dropping a non-empty segment from one slot changes the join. -/
theorem joinBar_slot_some_none {X Y : List (List Char)} {p : List Char}
    (hp : p ≠ []) : joinBar (X ++ p :: Y) ≠ joinBar (X ++ Y) := by
  intro heq
  have hlen := congrArg List.length heq
  rw [joinBar_split] at hlen
  cases Y with
  | cons y ys =>
    rw [joinBar_append_of_ne (by simp), barTail, joinBar_head_tail] at hlen
    simp [List.length_append] at hlen
    omega
  | nil =>
    rw [List.append_nil] at hlen
    cases X with
    | nil =>
      simp [preJoin, barTail, joinBar, joinWith] at hlen
      exact hp hlen
    | cons x xs =>
      rw [preJoin_eq_joinBar (by simp), barTail] at hlen
      simp [List.length_append] at hlen

/-! ## Claim C2: the exact-match resolver -/

/-- `condition_str` always equals the join of the sorted pairs: with no
conditions the pair list is empty and the join is the empty string, matching
the falsy-dict branch. -/
theorem condition_str_eq (c : CondDict) :
    (if c = [] then [] else joinBar (sortAsc (condition_values c))) =
      joinBar (sortAsc (condition_values c)) := by
  split
  · rename_i h
    subst h
    rfl
  · rfl

/-- The signature input in split form: canonical text, separator, and the
`'|'`-join of the included pairs in key order. -/
theorem create_signature_eq (t : List Char) (c : CondDict) :
    create_complaint_signature t c =
      remove_specific_locations (pyStrip (pyLower t)) ++
        '|' :: joinBar (ordKeys.filterMap (fun k => pairFor k (dictGet c k))) := by
  rw [create_complaint_signature, condition_str_eq, sortAsc_condition_values]

/-- C2 (b) core: condition dictionaries that agree on every allow-listed key
except one, where the included pair differs, produce different signatures. -/
theorem signature_breaks_on_changed_value (t : List Char) (c c' : CondDict)
    (k : List Char) (hk : k ∈ all_conditions)
    (hothers : ∀ k2 ∈ all_conditions, k2 ≠ k →
      pairFor k2 (dictGet c k2) = pairFor k2 (dictGet c' k2))
    (hdiff : pairFor k (dictGet c k) ≠ pairFor k (dictGet c' k)) :
    create_complaint_signature t c ≠ create_complaint_signature t c' := by
  rw [create_signature_eq, create_signature_eq]
  intro heq
  have heq2 : joinBar (ordKeys.filterMap (fun k2 => pairFor k2 (dictGet c k2))) =
      joinBar (ordKeys.filterMap (fun k2 => pairFor k2 (dictGet c' k2))) := by
    have h1 := List.append_cancel_left heq
    exact List.tail_eq_of_cons_eq h1
  have hk' : k ∈ ordKeys := ordKeys_perm.mem_iff.mp hk
  obtain ⟨pre, post, hsplit⟩ := List.append_of_mem hk'
  have hnodup : ordKeys.Nodup := by decide
  rw [hsplit] at hnodup
  have hkpost : k ∉ post := by
    have h2 := hnodup.of_append_right
    exact (List.nodup_cons.mp h2).1
  have hkpre : k ∉ pre := fun hmem =>
    (List.disjoint_of_nodup_append hnodup) hmem (List.mem_cons_self k post)
  have hmemord : ∀ x ∈ pre ++ k :: post, x ∈ all_conditions := by
    intro x hx
    rw [← hsplit] at hx
    exact ordKeys_perm.symm.subset hx
  have hpre : pre.filterMap (fun k2 => pairFor k2 (dictGet c k2)) =
      pre.filterMap (fun k2 => pairFor k2 (dictGet c' k2)) := by
    apply List.filterMap_congr
    intro x hx
    exact hothers x (hmemord x (List.mem_append_left _ hx))
      (fun hxk => hkpre (hxk ▸ hx))
  have hpost : post.filterMap (fun k2 => pairFor k2 (dictGet c k2)) =
      post.filterMap (fun k2 => pairFor k2 (dictGet c' k2)) := by
    apply List.filterMap_congr
    intro x hx
    exact hothers x (hmemord x (List.mem_append_right _ (List.mem_cons_of_mem k hx)))
      (fun hxk => hkpost (hxk ▸ hx))
  rw [hsplit, List.filterMap_append, List.filterMap_append, hpre,
    List.filterMap_cons, List.filterMap_cons, hpost] at heq2
  cases hgk : pairFor k (dictGet c k) with
  | some p =>
    cases hgk' : pairFor k (dictGet c' k) with
    | some p' =>
      rw [hgk, hgk'] at heq2
      exact joinBar_slot_some_some (fun hpp => hdiff (by rw [hgk, hgk', hpp])) heq2
    | none =>
      rw [hgk, hgk'] at heq2
      obtain ⟨tl, rfl⟩ := pairFor_shape hgk
      exact joinBar_slot_some_none (by simp) heq2
  | none =>
    cases hgk' : pairFor k (dictGet c' k) with
    | some p' =>
      rw [hgk, hgk'] at heq2
      obtain ⟨tl, rfl⟩ := pairFor_shape hgk'
      exact joinBar_slot_some_none (by simp) heq2.symm
    | none => exact hdiff (by rw [hgk, hgk'])

theorem findMatchScan_first (sig : List Char) :
    ∀ (corpus : List ComplaintRow) (i : Nat) (r : ComplaintRow),
      corpus.get? i = some r → sig = hist_signature r →
      (∀ j rj, j < i → corpus.get? j = some rj → sig ≠ hist_signature rj) →
      findMatchScan sig corpus =
        some (format_solution_paragraphs (r.solution.getD (chars "No solution found"))
          (chars "exact_match")) := by
  intro corpus
  induction corpus with
  | nil => intro i r hget; cases hget
  | cons r0 rest ih =>
    intro i r hget heq hfirst
    cases i with
    | zero =>
      have hr : r0 = r := Option.some_injective _ hget
      subst hr
      rw [findMatchScan, if_pos heq]
    | succ j =>
      have h0 : sig ≠ hist_signature r0 := hfirst 0 r0 (Nat.succ_pos j) rfl
      rw [findMatchScan, if_neg h0]
      exact ih j r hget heq (fun j2 rj hj2 hg => hfirst (j2 + 1) rj (by omega) hg)

theorem findMatchScan_none (sig : List Char) :
    ∀ (corpus : List ComplaintRow),
      (∀ r ∈ corpus, sig ≠ hist_signature r) → findMatchScan sig corpus = none := by
  intro corpus
  induction corpus with
  | nil => intro _; rfl
  | cons r0 rest ih =>
    intro h
    rw [findMatchScan, if_neg (h r0 (List.mem_cons_self r0 rest))]
    exact ih (fun r hr => h r (List.mem_cons_of_mem r0 hr))

/-- C2: `find_exact_match` returns the formatted stored solution of the
first record (in corpus order) whose rebuilt signature equals the incoming
one; changing any allow-listed condition value in a way the canonical pair
sees (the included `"key:value"` pair changes) breaks the signature match;
and a scan of the whole corpus with no signature match returns `none`
rather than an error. -/
theorem find_exact_match_first_change_none :
    (∀ (corpus : List ComplaintRow) (t : List Char) (c : CondDict) (i : Nat)
        (r : ComplaintRow),
      corpus.get? i = some r →
      create_complaint_signature t c = hist_signature r →
      (∀ j rj, j < i → corpus.get? j = some rj →
        create_complaint_signature t c ≠ hist_signature rj) →
      find_exact_match corpus t c =
        some (format_solution_paragraphs (r.solution.getD (chars "No solution found"))
          (chars "exact_match"))) ∧
    (∀ (t : List Char) (c c' : CondDict) (k : List Char),
      k ∈ all_conditions →
      (∀ k2 ∈ all_conditions, k2 ≠ k →
        pairFor k2 (dictGet c k2) = pairFor k2 (dictGet c' k2)) →
      pairFor k (dictGet c k) ≠ pairFor k (dictGet c' k) →
      create_complaint_signature t c ≠ create_complaint_signature t c') ∧
    (∀ (corpus : List ComplaintRow) (t : List Char) (c : CondDict),
      (∀ r ∈ corpus, create_complaint_signature t c ≠ hist_signature r) →
      find_exact_match corpus t c = none) := by
  refine ⟨?_, ?_, ?_⟩
  · intro corpus t c i r hget heq hfirst
    have hne : corpus ≠ [] := by
      intro h
      subst h
      cases hget
    rw [find_exact_match, if_neg hne]
    exact findMatchScan_first _ corpus i r hget heq hfirst
  · exact fun t c c' k hk => signature_breaks_on_changed_value t c c' k hk
  · intro corpus t c hnone
    rw [find_exact_match]
    split
    · rfl
    · exact findMatchScan_none _ corpus hnone

/-- Witness for C2 at concrete corpora and condition dictionaries. -/
theorem find_exact_match_first_change_none_witness :
    find_exact_match [simpleRow] (chars "web down") [] =
      some (format_solution_paragraphs (chars "reset") (chars "exact_match")) ∧
    create_complaint_signature (chars "x")
        [(chars "signal_strength", PyVal.pstr (chars "weak"))] ≠
      create_complaint_signature (chars "x")
        [(chars "signal_strength", PyVal.pstr (chars "strong"))] ∧
    find_exact_match [simpleRow] (chars "nothing like it") [] = none := by
  refine ⟨?_, ?_, ?_⟩
  · exact find_exact_match_first_change_none.1 [simpleRow] (chars "web down") [] 0
      simpleRow rfl (by decide) (fun j rj hj => absurd hj (by omega))
  · exact find_exact_match_first_change_none.2.1 (chars "x") _ _
      (chars "signal_strength") (by decide) (by decide) (by decide)
  · exact find_exact_match_first_change_none.2.2 [simpleRow] (chars "nothing like it") []
      (by decide)

/-! ## Claim C3: signature invariance -/

theorem isUpper_toNat_bounds {c : Char} (h : c.isUpper = true) :
    65 ≤ c.toNat ∧ c.toNat ≤ 90 := by
  simp only [Char.isUpper, Bool.and_eq_true, decide_eq_true_eq] at h
  obtain ⟨h1, h2⟩ := h
  rw [ge_iff_le, UInt32.le_def, BitVec.le_def] at h1
  rw [UInt32.le_def, BitVec.le_def] at h2
  exact ⟨by simpa using h1, by simpa using h2⟩

theorem toNat_ofNat_small {n : Nat} (h : n < 55296) : (Char.ofNat n).toNat = n := by
  rw [Char.ofNat, dif_pos (Or.inl (by omega))]
  rfl

theorem isPySpace_eq_false_of_toNat {c : Char} (h : 33 ≤ c.toNat) :
    isPySpace c = false := by
  simp only [isPySpace, Bool.or_eq_false_iff, beq_eq_false_iff_ne, ne_eq]
  refine ⟨⟨⟨⟨⟨fun he => ?_, fun he => ?_⟩, fun he => ?_⟩, fun he => ?_⟩, fun he => ?_⟩,
    fun he => ?_⟩ <;>
    (subst he; exact absurd h (by decide))

/-- ASCII lower-casing does not change whitespace-ness. -/
theorem isPySpace_toLowerA (c : Char) : isPySpace (toLowerA c) = isPySpace c := by
  rw [toLowerA]
  split
  · rename_i h
    obtain ⟨h1, h2⟩ := isUpper_toNat_bounds h
    rw [isPySpace_eq_false_of_toNat (by rw [toNat_ofNat_small (by omega)]; omega),
      isPySpace_eq_false_of_toNat (by omega)]
  · rfl

/-- `str.lower` and `str.strip` commute on the ASCII fragment. -/
theorem pyStrip_pyLower_comm (s : List Char) :
    pyStrip (pyLower s) = pyLower (pyStrip s) := by
  have hdw : ∀ l : List Char,
      (l.map toLowerA).dropWhile isPySpace = (l.dropWhile isPySpace).map toLowerA := by
    intro l
    induction l with
    | nil => rfl
    | cons c cs ih =>
      rw [List.map_cons, List.dropWhile_cons, List.dropWhile_cons, isPySpace_toLowerA]
      split
      · exact ih
      · rw [List.map_cons]
  rw [pyStrip, pyStrip, pyLower, pyLower, hdw, ← List.map_reverse, hdw,
    ← List.map_reverse]

/-- The canonical form of a condition value: the part of the value the
Signature Builder can observe. -/
def canonVal : PyVal → PyVal
  | .pstr s => .pstr (pyStrip (pyLower s))
  | v => v

theorem pairFor_canon {k : List Char} {v1 v2 : Option PyVal}
    (h : Option.map canonVal v1 = Option.map canonVal v2) :
    pairFor k v1 = pairFor k v2 := by
  cases v1 with
  | none =>
    cases v2 with
    | none => rfl
    | some b => simp at h
  | some a =>
    cases v2 with
    | none => simp at h
    | some b =>
      replace h : canonVal a = canonVal b := by simpa using h
      cases a with
      | pstr s1 =>
        cases b with
        | pstr s2 =>
          simp only [canonVal, PyVal.pstr.injEq] at h
          have hsent : pyLower (pyStrip s1) = pyLower (pyStrip s2) := by
            rw [← pyStrip_pyLower_comm, ← pyStrip_pyLower_comm, h]
          show (if PyVal.pstr s1 = PyVal.pnone then none else _) =
            (if PyVal.pstr s2 = PyVal.pnone then none else _)
          rw [if_neg (by simp), if_neg (by simp)]
          show (if pyLower (pyStrip s1) ∈ sentinelStrings then none else _) =
            (if pyLower (pyStrip s2) ∈ sentinelStrings then none else _)
          rw [hsent]
          split
          · rfl
          · show (if k ∈ coordKeys ∧ isNumeric (PyVal.pstr s1) = true then _ else _) =
              (if k ∈ coordKeys ∧ isNumeric (PyVal.pstr s2) = true then _ else _)
            rw [if_neg (by simp [isNumeric]), if_neg (by simp [isNumeric])]
            show some (k ++ ':' :: pyStrip (pyLower s1)) =
              some (k ++ ':' :: pyStrip (pyLower s2))
            rw [h]
        | pint z => simp [canonVal] at h
        | pfloat q => simp [canonVal] at h
        | pnone => simp [canonVal] at h
      | pint z1 =>
        cases b with
        | pstr s2 => simp [canonVal] at h
        | pint z2 => simp only [canonVal, PyVal.pint.injEq] at h; rw [h]
        | pfloat q2 => simp [canonVal] at h
        | pnone => simp [canonVal] at h
      | pfloat q1 =>
        cases b with
        | pstr s2 => simp [canonVal] at h
        | pint z2 => simp [canonVal] at h
        | pfloat q2 => simp only [canonVal, PyVal.pfloat.injEq] at h; rw [h]
        | pnone => simp [canonVal] at h
      | pnone =>
        cases b with
        | pstr s2 => simp [canonVal] at h
        | pint z2 => simp [canonVal] at h
        | pfloat q2 => simp [canonVal] at h
        | pnone => rfl

theorem keys_nodup_inj {l : CondDict} (h : (l.map Prod.fst).Nodup) :
    ∀ x ∈ l, ∀ y ∈ l, x.1 = y.1 → x = y := by
  have hp : l.Pairwise (fun a b => a.1 ≠ b.1) := List.pairwise_map.mp h
  intro x hx y hy hxy
  by_contra hne
  exact hp.forall (fun a b hab => hab ∘ Eq.symm) hx hy hne hxy

theorem dictGet_perm {c1 c2 : CondDict} (hperm : List.Perm c1 c2)
    (hnodup : (c1.map Prod.fst).Nodup) (k : List Char) :
    dictGet c1 k = dictGet c2 k := by
  rw [dictGet, dictGet]
  cases hf : List.find? (fun p => p.1 == k) c1 with
  | none =>
    rw [List.find?_eq_none] at hf
    rw [List.find?_eq_none.mpr (fun x hx => hf x (hperm.symm.subset hx))]
  | some x =>
    have hpx := List.find?_some hf
    have hx1 : x ∈ c1 := List.mem_of_find?_eq_some hf
    cases hf2 : List.find? (fun p => p.1 == k) c2 with
    | none =>
      rw [List.find?_eq_none] at hf2
      exact absurd hpx (hf2 x (hperm.subset hx1))
    | some y =>
      have hpy := List.find?_some hf2
      have hy1 : y ∈ c1 := hperm.symm.subset (List.mem_of_find?_eq_some hf2)
      have hxy : x.1 = y.1 := by
        have e1 : x.1 = k := eq_of_beq hpx
        have e2 : y.1 = k := eq_of_beq hpy
        rw [e1, e2]
      rw [keys_nodup_inj hnodup x hx1 y hy1 hxy]

/-- C3: the signature is invariant under reordering of the condition
dictionary's insertion/iteration order (with the unique keys of a Python
dict), and under case or surrounding-whitespace differences in the
complaint text and in string-valued condition values (captured by equality
of the canonical forms). -/
theorem create_complaint_signature_invariance :
    (∀ (t : List Char) (c1 c2 : CondDict), List.Perm c1 c2 →
      (c1.map Prod.fst).Nodup →
      create_complaint_signature t c1 = create_complaint_signature t c2) ∧
    (∀ (t1 t2 : List Char) (c1 c2 : CondDict),
      pyStrip (pyLower t1) = pyStrip (pyLower t2) →
      (∀ k ∈ all_conditions,
        Option.map canonVal (dictGet c1 k) = Option.map canonVal (dictGet c2 k)) →
      create_complaint_signature t1 c1 = create_complaint_signature t2 c2) := by
  constructor
  · intro t c1 c2 hperm hnodup
    rw [create_signature_eq, create_signature_eq]
    have hfm : ordKeys.filterMap (fun k => pairFor k (dictGet c1 k)) =
        ordKeys.filterMap (fun k => pairFor k (dictGet c2 k)) := by
      apply List.filterMap_congr
      intro k _
      rw [dictGet_perm hperm hnodup k]
    rw [hfm]
  · intro t1 t2 c1 c2 ht hc
    rw [create_signature_eq, create_signature_eq, ht]
    have hfm : ordKeys.filterMap (fun k => pairFor k (dictGet c1 k)) =
        ordKeys.filterMap (fun k => pairFor k (dictGet c2 k)) := by
      apply List.filterMap_congr
      intro k hk
      exact pairFor_canon (hc k (ordKeys_perm.symm.subset hk))
    rw [hfm]

/-- Witness for C3 at concrete reordered and re-cased dictionaries. -/
theorem create_complaint_signature_invariance_witness :
    create_complaint_signature (chars "No signal")
        [(chars "signal_strength", PyVal.pstr (chars "weak")),
         (chars "quality_of_signal", PyVal.pstr (chars "poor"))] =
      create_complaint_signature (chars "No signal")
        [(chars "quality_of_signal", PyVal.pstr (chars "poor")),
         (chars "signal_strength", PyVal.pstr (chars "weak"))] ∧
    create_complaint_signature (chars "  No Signal ")
        [(chars "signal_strength", PyVal.pstr (chars " WEAK "))] =
      create_complaint_signature (chars "no signal")
        [(chars "signal_strength", PyVal.pstr (chars "weak"))] := by
  constructor
  · exact create_complaint_signature_invariance.1 _ _ _
      (List.Perm.swap _ _ _) (by decide)
  · exact create_complaint_signature_invariance.2 _ _ _ _ (by decide) (by decide)

/-! ## Claim C7: signature pipeline order (refuted, then amended) -/

/-- C7 counterexample: the signature is NOT computed by normalizing first
and lower-casing/trimming afterwards.  On `"ABC123 problem"` the source
lower-cases first (so the site token `ABC123` survives as `abc123`), while
the claimed order would replace it with `the area` before lower-casing. -/
theorem create_complaint_signature_order_counterexample :
    create_complaint_signature (chars "ABC123 problem") [] ≠
      spec_signature_claimed (chars "ABC123 problem") [] := by
  decide

/-- C7 amended: `create_complaint_signature` hashes over the complaint text
processed by lower-casing/trimming FIRST and location-token normalization
AFTERWARDS, concatenated by a separator with the `'|'`-joined,
lexicographically sorted `key:value` condition pairs (the spec-modelled
builder `spec_signature_amended` with the corrected order); the sorted pair
list is indeed lexicographically ordered. -/
theorem create_complaint_signature_layout :
    ∀ (t : List Char) (c : CondDict),
      create_complaint_signature t c = spec_signature_amended t c ∧
      (sortAsc (condition_values c)).Pairwise strLe := by
  intro t c
  refine ⟨?_, sortAsc_sorted _⟩
  rw [create_signature_eq, spec_signature_amended]
  rw [List.filterMap_map]
  rw [show ((fun kv : List Char × Option PyVal => pairFor kv.1 kv.2) ∘
    fun k => (k, dictGet c k)) = fun k => pairFor k (dictGet c k) from rfl]
  rw [show (List.filterMap (fun k => pairFor k (dictGet c k)) all_conditions) =
    condition_values c from rfl, sortAsc_condition_values]
  simp [List.append_assoc, chars]

/-! ## Claim C10 amended: location key vs exact match, without separator injection -/

/-- A tail of a `'|'`-separated join: empty or starting with the bar. -/
def barHead (x : List Char) : Prop :=
  x = [] ∨ ∃ x', x = '|' :: x'

theorem barfree_append_inj {a b x y : List Char} (ha : '|' ∉ a) (hb : '|' ∉ b)
    (hx : barHead x) (hy : barHead y) (h : a ++ x = b ++ y) : a = b ∧ x = y := by
  induction a generalizing b with
  | nil =>
    cases b with
    | nil => exact ⟨rfl, h⟩
    | cons d bs =>
      rcases hx with rfl | ⟨x', rfl⟩
      · cases h
      · rw [List.nil_append] at h
        have hd : d = '|' := (List.cons.injEq _ _ _ _ ▸ h).1.symm
        exact absurd (hd ▸ List.mem_cons_self d bs) hb
  | cons ca as ih =>
    cases b with
    | nil =>
      rcases hy with rfl | ⟨y', rfl⟩
      · cases h
      · rw [List.nil_append] at h
        have hd : ca = '|' := (List.cons.injEq _ _ _ _ ▸ h).1
        exact absurd (hd ▸ List.mem_cons_self ca as) ha
    | cons d bs =>
      rw [List.cons_append, List.cons_append] at h
      obtain ⟨hhd, htl⟩ := List.cons.injEq _ _ _ _ ▸ h
      obtain ⟨h1, h2⟩ := ih (fun hm => ha (List.mem_cons_of_mem ca hm))
        (fun hm => hb (List.mem_cons_of_mem d hm)) htl
      exact ⟨by rw [hhd, h1], h2⟩

theorem barHead_barTail (l : List (List Char)) : barHead (barTail l) := by
  cases l with
  | nil => exact Or.inl rfl
  | cons y ys => exact Or.inr ⟨_, rfl⟩

/-- `'|'.join` is injective on lists of non-empty, bar-free segments. -/
theorem joinBar_inj {l1 l2 : List (List Char)}
    (h1 : ∀ p ∈ l1, p ≠ [] ∧ '|' ∉ p) (h2 : ∀ p ∈ l2, p ≠ [] ∧ '|' ∉ p)
    (h : joinBar l1 = joinBar l2) : l1 = l2 := by
  induction l1 generalizing l2 with
  | nil =>
    cases l2 with
    | nil => rfl
    | cons b bs =>
      rw [joinBar_head_tail] at h
      rcases List.append_eq_nil.mp h.symm with ⟨hb, _⟩
      exact absurd hb (h2 b (List.mem_cons_self b bs)).1
  | cons a as ih =>
    cases l2 with
    | nil =>
      rw [joinBar_head_tail] at h
      rcases List.append_eq_nil.mp h with ⟨ha, _⟩
      exact absurd ha (h1 a (List.mem_cons_self a as)).1
    | cons b bs =>
      rw [joinBar_head_tail, joinBar_head_tail] at h
      obtain ⟨hab, htails⟩ := barfree_append_inj
        (h1 a (List.mem_cons_self a as)).2 (h2 b (List.mem_cons_self b bs)).2
        (barHead_barTail as) (barHead_barTail bs) h
      subst hab
      cases as with
      | nil =>
        cases bs with
        | nil => rfl
        | cons y ys => cases htails
      | cons x xs =>
        cases bs with
        | nil => cases htails
        | cons y ys =>
          rw [barTail, barTail] at htails
          have := ih (fun p hp => h1 p (List.mem_cons_of_mem a hp))
            (fun p hp => h2 p (List.mem_cons_of_mem a hp))
            (List.tail_eq_of_cons_eq htails)
          rw [this]

/-- The two fields of a signature input are recovered uniquely when the text
part is bar-free. -/
theorem signature_parts_inj {n1 n2 x1 x2 : List Char}
    (h1 : '|' ∉ n1) (h2 : '|' ∉ n2)
    (h : n1 ++ '|' :: x1 = n2 ++ '|' :: x2) : n1 = n2 ∧ x1 = x2 := by
  obtain ⟨ha, hb⟩ := barfree_append_inj h1 h2 (Or.inr ⟨x1, rfl⟩) (Or.inr ⟨x2, rfl⟩) h
  exact ⟨ha, List.tail_eq_of_cons_eq hb⟩

theorem strEntry_key {k : String} {v : Option (List Char)}
    {x : List Char × PyVal} (hx : x ∈ strEntry k v) : x.1 = chars k := by
  rcases v with _ | s
  · cases hx
  · rw [strEntry] at hx
    split at hx
    · cases hx
    · rcases List.mem_singleton.mp hx with rfl
      rfl

theorem coordEntry_key {k : String} {v : Option ℚ}
    {x : List Char × PyVal} (hx : x ∈ coordEntry k v) : x.1 = chars k := by
  rcases v with _ | q
  · cases hx
  · rw [coordEntry] at hx
    split at hx
    · rcases List.mem_singleton.mp hx with rfl
      rfl
    · cases hx

/-- The rebuilt historical condition dictionary never binds the `location`
key. -/
theorem dictGet_hist_location (r : ComplaintRow) :
    dictGet (hist_conditions r) (chars "location") = none := by
  rw [dictGet]
  have hnone : List.find? (fun p => p.1 == chars "location") (hist_conditions r) = none := by
    rw [List.find?_eq_none]
    intro x hx
    rw [hist_conditions] at hx
    simp only [List.append_assoc, List.mem_append] at hx
    have hkey : x.1 ≠ chars "location" := by
      rcases hx with hx | hx | hx | hx | hx | hx | hx | hx
      · rw [strEntry_key hx]; decide
      · rw [strEntry_key hx]; decide
      · rw [strEntry_key hx]; decide
      · rw [strEntry_key hx]; decide
      · rw [strEntry_key hx]; decide
      · rw [strEntry_key hx]; decide
      · rw [coordEntry_key hx]; decide
      · rw [coordEntry_key hx]; decide
    simp [hkey]
  rw [hnone]
  rfl

/-- Distinct allow-listed keys cannot head the same `key:value` pair: no
key is a prefix of another, so the comparison is decided inside the keys. -/
theorem distinct_key_pairs_ne :
    ∀ k1 ∈ all_conditions, ∀ k2 ∈ all_conditions, k1 ≠ k2 →
      ∀ t1 t2 : List Char, k1 ++ ':' :: t1 ≠ k2 ++ ':' :: t2 := by
  intro k1 h1 k2 h2 hne t1 t2 heq
  have hor : (keyLtb k1 k2 || keyLtb k2 k1) = true := by
    have hd : ∀ a ∈ all_conditions, ∀ b ∈ all_conditions,
        a ≠ b → (keyLtb a b || keyLtb b a) = true := by decide
    exact hd k1 h1 k2 h2 hne
  rcases (by simpa using hor : keyLtb k1 k2 = true ∨ keyLtb k2 k1 = true) with h | h
  · have hlt := keyLtb_append h (':' :: t1) (':' :: t2)
    rw [heq, listLtb_irrefl] at hlt
    cases hlt
  · have hlt := keyLtb_append h (':' :: t2) (':' :: t1)
    rw [← heq, listLtb_irrefl] at hlt
    cases hlt

theorem condition_pair_props {c : CondDict} {p : List Char}
    (hp : p ∈ ordKeys.filterMap (fun k => pairFor k (dictGet c k)))
    (hbar : ∀ q ∈ condition_values c, '|' ∉ q) : p ≠ [] ∧ '|' ∉ p := by
  have hpc : p ∈ condition_values c := by
    rw [condition_values]
    exact ((ordKeys_perm.filterMap (fun k => pairFor k (dictGet c k))).mem_iff).mpr hp
  refine ⟨?_, hbar p hpc⟩
  obtain ⟨k, _, hpk⟩ := List.mem_filterMap.mp hp
  obtain ⟨t, rfl⟩ := pairFor_shape hpk
  intro hnil
  rcases List.append_eq_nil.mp hnil with ⟨_, h2⟩
  cases h2

/-- Claim C10, amended: with a non-sentinel incoming location and no `'|'`
embedded in the normalized texts or any included condition pair,
`find_exact_match` returns `None` for every corpus, since the incoming
signature input carries a `location:` pair that no historical signature
input can carry. -/
theorem find_exact_match_location_mismatch
    (corpus : List ComplaintRow) (t : List Char) (c : CondDict)
    (p0 : List Char)
    (hloc : pairFor (chars "location") (dictGet c (chars "location")) = some p0)
    (hbt : '|' ∉ remove_specific_locations (pyStrip (pyLower t)))
    (hbc : ∀ p ∈ condition_values c, '|' ∉ p)
    (hcorp : ∀ r ∈ corpus,
      '|' ∉ remove_specific_locations (pyStrip (pyLower
        (remove_specific_locations (r.issue.getD [])))) ∧
      ∀ p ∈ condition_values (hist_conditions r), '|' ∉ p) :
    find_exact_match corpus t c = none := by
  rw [find_exact_match]
  split
  · rfl
  · apply findMatchScan_none
    intro r hr heq
    obtain ⟨hrt, hrc⟩ := hcorp r hr
    rw [create_signature_eq, hist_signature, create_signature_eq] at heq
    obtain ⟨_, hjoin⟩ := signature_parts_inj hbt hrt heq
    have hlists := joinBar_inj
      (fun p hp => condition_pair_props hp hbc)
      (fun p hp => condition_pair_props hp hrc) hjoin
    have hp0 : p0 ∈ ordKeys.filterMap (fun k => pairFor k (dictGet c k)) :=
      List.mem_filterMap.mpr ⟨chars "location",
        (by decide : chars "location" ∈ ordKeys), hloc⟩
    rw [hlists] at hp0
    obtain ⟨k, hk, hpk⟩ := List.mem_filterMap.mp hp0
    by_cases hkl : k = chars "location"
    · rw [hkl, dictGet_hist_location] at hpk
      cases hpk
    · obtain ⟨t1, hshape1⟩ := pairFor_shape hpk
      obtain ⟨t2, hshape2⟩ := pairFor_shape hloc
      have hkall : k ∈ all_conditions := (ordKeys_perm.mem_iff).mpr hk
      exact distinct_key_pairs_ne k hkall (chars "location")
        (by decide) hkl t1 t2 (hshape1 ▸ hshape2 ▸ rfl)

/-- C10 amended witness: a concrete bar-free corpus and incoming complaint
with a non-sentinel location, on which the match indeed fails. -/
theorem find_exact_match_location_mismatch_witness :
    find_exact_match [simpleRow] (chars "web down") injectionConds = none :=
  find_exact_match_location_mismatch [simpleRow] (chars "web down")
    injectionConds (chars "location:zz") (by decide) (by decide) (by decide)
    (by decide)

/-! ## Claim C9 amended: restricted idempotence of the text normalizer -/

theorem pySubAux_succ_none {tryM : Option Char → List Char → Option Nat}
    {repl : List Char} {n : Nat} {prev : Option Char} {c : Char}
    {rest : List Char} (h : tryM prev (c :: rest) = none) :
    pySubAux tryM repl (n + 1) prev (c :: rest) =
      c :: pySubAux tryM repl n (some c) rest := by
  rw [pySubAux, h]

theorem pySubAux_succ_some {tryM : Option Char → List Char → Option Nat}
    {repl : List Char} {n : Nat} {prev : Option Char} {c : Char}
    {rest : List Char} {m : Nat} (h : tryM prev (c :: rest) = some m)
    (hm : m ≠ 0) :
    pySubAux tryM repl (n + 1) prev (c :: rest) =
      repl ++ pySubAux tryM repl n ((c :: rest).get? (m - 1))
        (rest.drop (m - 1)) := by
  rw [pySubAux, h]
  simp only [if_neg hm]

/-- A substitution pass whose scanner never fires on characters of the
string leaves the string unchanged. -/
theorem pySubAux_id {tryM : Option Char → List Char → Option Nat}
    {repl : List Char} {P : Char → Prop}
    (hnone : ∀ pr c su, P c → (∀ x ∈ su, P x) → tryM pr (c :: su) = none) :
    ∀ fuel prev s, (∀ c ∈ s, P c) → pySubAux tryM repl fuel prev s = s := by
  intro fuel
  induction fuel with
  | zero =>
    intro prev s _
    cases s with
    | nil => rfl
    | cons c rest => rfl
  | succ n ih =>
    intro prev s hs
    cases s with
    | nil => rfl
    | cons c rest =>
      rw [pySubAux_succ_none (hnone prev c rest (hs c (List.mem_cons_self c rest))
        (fun x hx => hs x (List.mem_cons_of_mem c hx)))]
      rw [ih (some c) rest (fun x hx => hs x (List.mem_cons_of_mem c hx))]

/-- Characters of a substitution pass output come from the replacement or
the input. -/
theorem pySubAux_mem {tryM : Option Char → List Char → Option Nat}
    {repl : List Char} :
    ∀ fuel prev s x, x ∈ pySubAux tryM repl fuel prev s → x ∈ repl ∨ x ∈ s := by
  intro fuel
  induction fuel with
  | zero =>
    intro prev s x hx
    cases s with
    | nil => exact Or.inr hx
    | cons c rest => exact Or.inr hx
  | succ n ih =>
    intro prev s x hx
    cases s with
    | nil => exact Or.inr hx
    | cons c rest =>
      cases htry : tryM prev (c :: rest) with
      | none =>
        rw [pySubAux_succ_none htry] at hx
        rcases List.mem_cons.mp hx with rfl | hx
        · exact Or.inr (List.mem_cons_self x rest)
        · rcases ih (some c) rest x hx with h | h
          · exact Or.inl h
          · exact Or.inr (List.mem_cons_of_mem c h)
      | some m =>
        by_cases hm : m = 0
        · rw [pySubAux, htry] at hx
          simp only [hm, if_pos] at hx
          rcases List.mem_cons.mp hx with rfl | hx
          · exact Or.inr (List.mem_cons_self x rest)
          · rcases ih (some c) rest x hx with h | h
            · exact Or.inl h
            · exact Or.inr (List.mem_cons_of_mem c h)
        · rw [pySubAux_succ_some htry hm] at hx
          rcases List.mem_append.mp hx with h | h
          · exact Or.inl h
          · rcases ih _ _ x h with h2 | h2
            · exact Or.inl h2
            · exact Or.inr (List.mem_cons_of_mem c (List.mem_of_mem_drop h2))

theorem tryUpperDigit_none {pr : Option Char} {c : Char} {su : List Char}
    (hc : c.isUpper = false) : tryUpperDigit pr (c :: su) = none := by
  simp [tryUpperDigit, runLen, hc]

theorem tryDecimal_none {pr : Option Char} {c : Char} {su : List Char}
    (hc : c.isDigit = false) : tryDecimal pr (c :: su) = none := by
  simp [tryDecimal, runLen, hc]

theorem tryInteger_none {pr : Option Char} {c : Char} {su : List Char}
    (hc : c.isDigit = false) : tryInteger pr (c :: su) = none := by
  simp [tryInteger, runLen, hc]

theorem tryDbm_none {pr : Option Char} {c : Char} {su : List Char}
    (hc : c.isDigit = false) : tryDbm pr (c :: su) = none := by
  simp [tryDbm, runLen, hc]

theorem tryPercent_none {pr : Option Char} {c : Char} {su : List Char}
    (hc : c.isDigit = false) : tryPercent pr (c :: su) = none := by
  simp [tryPercent, runLen, hc]

theorem tryCommaComma_none {pr : Option Char} {c : Char} {su : List Char}
    (hc : c ≠ ',') : tryCommaComma pr (c :: su) = none := by
  rw [tryCommaComma.eq_def]
  split
  · next s1 heq =>
    obtain ⟨h1, -⟩ := List.cons.injEq _ _ _ _ ▸ heq
    exact absurd h1 hc
  · rfl

theorem trySpaceComma_none {pr : Option Char} {c : Char} {su : List Char}
    (hsu : ∀ x ∈ su, x ≠ ',') : trySpaceComma pr (c :: su) = none := by
  rw [trySpaceComma.eq_def]
  split
  · next c2 rest heq =>
    obtain ⟨-, h2⟩ := List.cons.injEq _ _ _ _ ▸ heq
    have hmem : ',' ∈ su := by rw [h2]; exact List.mem_cons_self ',' rest
    exact absurd rfl (hsu ',' hmem)
  · rfl

/-- A whitespace-collapsed string: every whitespace character is a single
`' '` not followed by further whitespace. -/
def tidyWs : List Char → Bool
  | [] => true
  | [c] => !isPySpace c || (c == ' ')
  | c :: d :: rest =>
    (!isPySpace c || ((c == ' ') && !isPySpace d)) && tidyWs (d :: rest)

theorem tidyWs_tail {c : Char} {rest : List Char}
    (h : tidyWs (c :: rest) = true) : tidyWs rest = true := by
  cases rest with
  | nil => rfl
  | cons d t => exact (Bool.and_eq_true _ _ ▸ h).2

theorem tidyWs_cons_nonws {c : Char} {l : List Char}
    (hc : isPySpace c = false) (hl : tidyWs l = true) :
    tidyWs (c :: l) = true := by
  cases l with
  | nil => simp [tidyWs, hc]
  | cons d t => simp [tidyWs, hc, hl]

theorem drop_runLen (p : Char → Bool) (s : List Char) :
    s.drop (runLen p s) = s.dropWhile p := by
  induction s with
  | nil => rfl
  | cons c rest ih =>
    rw [runLen, List.takeWhile, List.dropWhile]
    cases hp : p c with
    | true => simpa using ih
    | false => simp

theorem dropWhile_head_not {p : Char → Bool} {s : List Char} :
    ∀ {l : List Char} {c : Char}, l.dropWhile p = c :: s → p c = false := by
  intro l
  induction l with
  | nil => intro c h; cases h
  | cons a t ih =>
    intro c h
    rw [List.dropWhile] at h
    cases hp : p a with
    | true => exact ih (by rw [hp] at h; exact h)
    | false =>
      rw [hp] at h
      obtain ⟨h1, -⟩ := List.cons.injEq _ _ _ _ ▸ (h : a :: t = c :: s)
      rw [← h1, hp]

theorem pySubAux_nil {tryM : Option Char → List Char → Option Nat}
    {repl : List Char} : ∀ fuel prev,
    pySubAux tryM repl fuel prev ([] : List Char) = [] := by
  intro fuel prev
  cases fuel with
  | zero => rfl
  | succ n => rfl

theorem trySpaces_none {pr : Option Char} {c : Char} {su : List Char}
    (hc : isPySpace c = false) : trySpaces pr (c :: su) = none := by
  simp [trySpaces, runLen, hc]

theorem trySpaces_one_nil {pr : Option Char} {c : Char}
    (hc : isPySpace c = true) : trySpaces pr [c] = some 1 := by
  simp [trySpaces, runLen, hc]

theorem trySpaces_one_cons {pr : Option Char} {c d : Char} {su : List Char}
    (hc : isPySpace c = true) (hd : isPySpace d = false) :
    trySpaces pr (c :: d :: su) = some 1 := by
  simp [trySpaces, runLen, hc, hd]

/-- The `\s+ → ' '` pass fixes every whitespace-collapsed string. -/
theorem collapse_id :
    ∀ (fuel : Nat) (prev : Option Char) (s : List Char), tidyWs s = true →
      pySubAux trySpaces (chars " ") fuel prev s = s := by
  intro fuel
  induction fuel with
  | zero =>
    intro prev s _
    cases s with
    | nil => rfl
    | cons c rest => rfl
  | succ n ih =>
    intro prev s hs
    cases s with
    | nil => rfl
    | cons c rest =>
      cases hsp : isPySpace c with
      | false =>
        rw [pySubAux_succ_none (trySpaces_none hsp),
          ih (some c) rest (tidyWs_tail hs)]
      | true =>
        cases rest with
        | nil =>
          have hc : c = ' ' := by
            have := hs
            simp only [tidyWs, hsp, Bool.not_true, Bool.false_or] at this
            exact eq_of_beq this
          rw [pySubAux_succ_some (trySpaces_one_nil hsp) one_ne_zero]
          rw [hc]
          simp [pySubAux_nil, chars]
        | cons d rest2 =>
          have hpair : (c == ' ') = true ∧ isPySpace d = false := by
            have h1 := (Bool.and_eq_true _ _ ▸ hs).1
            simp only [hsp, Bool.not_true, Bool.false_or, Bool.and_eq_true,
              Bool.not_eq_true'] at h1
            exact h1
          have hc : c = ' ' := eq_of_beq hpair.1
          rw [pySubAux_succ_some (trySpaces_one_cons hsp hpair.2) one_ne_zero]
          rw [show (1 : Nat) - 1 = 0 from rfl, List.drop_zero]
          rw [ih _ (d :: rest2) (tidyWs_tail hs)]
          rw [hc]
          rfl

/-- The `\s+ → ' '` pass produces a whitespace-collapsed string. -/
theorem collapse_tidy :
    ∀ (fuel : Nat) (s : List Char) (prev : Option Char), s.length ≤ fuel →
      tidyWs (pySubAux trySpaces (chars " ") fuel prev s) = true := by
  intro fuel
  induction fuel with
  | zero =>
    intro s prev hlen
    cases s with
    | nil => rfl
    | cons c rest => simp at hlen
  | succ n ih =>
    intro s prev hlen
    cases s with
    | nil => rfl
    | cons c rest =>
      cases hsp : isPySpace c with
      | false =>
        rw [pySubAux_succ_none (trySpaces_none hsp)]
        exact tidyWs_cons_nonws hsp
          (ih rest (some c) (by simpa using hlen))
      | true =>
        have hw : trySpaces prev (c :: rest) =
            some (runLen isPySpace (c :: rest)) := by
          have hw0 : runLen isPySpace (c :: rest) ≠ 0 := by
            simp [runLen, List.takeWhile, hsp]
          simp [trySpaces, hw0]
        have hwpos : runLen isPySpace (c :: rest) ≠ 0 := by
          simp [runLen, List.takeWhile, hsp]
        rw [pySubAux_succ_some hw hwpos]
        have hdropeq : rest.drop (runLen isPySpace (c :: rest) - 1) =
            (c :: rest).dropWhile isPySpace := by
          rw [← drop_runLen isPySpace (c :: rest)]
          cases hrl : runLen isPySpace (c :: rest) with
          | zero => exact absurd hrl hwpos
          | succ k => simp
        have hrestlen : (rest.drop (runLen isPySpace (c :: rest) - 1)).length ≤ n := by
          rw [List.length_drop]
          have : rest.length ≤ n := by simpa using hlen
          omega
        cases hr : rest.drop (runLen isPySpace (c :: rest) - 1) with
        | nil =>
          rw [pySubAux_nil]
          rfl
        | cons d ds =>
          have hd : isPySpace d = false :=
            dropWhile_head_not (by rw [← hdropeq, hr])
          rw [hr] at hrestlen
          have hn : ∃ n2, n = n2 + 1 := by
            cases n with
            | zero => simp at hrestlen
            | succ n2 => exact ⟨n2, rfl⟩
          obtain ⟨n2, rfl⟩ := hn
          rw [pySubAux_succ_none (trySpaces_none hd)]
          have htX : tidyWs (d :: pySubAux trySpaces (chars " ") n2 (some d) ds)
              = true := by
            have := ih (d :: ds) ((c :: rest).get? (runLen isPySpace (c :: rest) - 1))
              hrestlen
            rwa [pySubAux_succ_none (trySpaces_none hd)] at this
          simp only [chars] at htX
          simp [chars, tidyWs, htX, hd]

theorem mem_of_mem_dropWhile {p : Char → Bool} {x : Char} :
    ∀ {l : List Char}, x ∈ l.dropWhile p → x ∈ l := by
  intro l
  induction l with
  | nil => intro h; exact h
  | cons c rest ih =>
    intro h
    rw [List.dropWhile] at h
    cases hp : p c with
    | true =>
      rw [hp] at h
      exact List.mem_cons_of_mem c (ih h)
    | false =>
      rw [hp] at h
      exact h

theorem pyStrip_subset {x : Char} {s : List Char} (h : x ∈ pyStrip s) :
    x ∈ s := by
  rw [pyStrip] at h
  rw [List.mem_reverse] at h
  have h2 := mem_of_mem_dropWhile h
  rw [List.mem_reverse] at h2
  exact mem_of_mem_dropWhile h2

theorem dropWhile_suffix_self (p : Char → Bool) :
    ∀ l : List Char, l.dropWhile p <:+ l := by
  intro l
  induction l with
  | nil => exact List.suffix_rfl
  | cons c rest ih =>
    rw [List.dropWhile]
    cases hp : p c with
    | true => exact ih.trans (List.suffix_cons c rest)
    | false => exact List.suffix_rfl

theorem tidyWs_suffix : ∀ {l1 l2 : List Char}, l1 <:+ l2 →
    tidyWs l2 = true → tidyWs l1 = true := by
  intro l1 l2 hsuf h2
  obtain ⟨t, rfl⟩ := hsuf
  induction t with
  | nil => exact h2
  | cons c rest ih => exact ih (tidyWs_tail h2)

theorem tidyWs_append_left : ∀ {l1 l2 : List Char},
    tidyWs (l1 ++ l2) = true → tidyWs l1 = true := by
  intro l1
  induction l1 with
  | nil => intro l2 _; rfl
  | cons c cs ih =>
    intro l2 h
    cases cs with
    | nil =>
      cases l2 with
      | nil => exact h
      | cons d t =>
        rw [List.cons_append, List.nil_append] at h
        have h1 := (Bool.and_eq_true _ _ ▸ h).1
        simp only [tidyWs, Bool.or_eq_true, Bool.and_eq_true] at h1 ⊢
        rcases h1 with h1 | h1
        · exact Or.inl h1
        · exact Or.inr h1.1
    | cons d ds =>
      rw [List.cons_append, List.cons_append] at h
      have h1 := (Bool.and_eq_true _ _ ▸ h).1
      have h2 := (Bool.and_eq_true _ _ ▸ h).2
      rw [← List.cons_append] at h2
      have := ih h2
      simp only [tidyWs, Bool.and_eq_true] at this ⊢
      exact ⟨h1, this⟩

theorem dropWhile_idem (p : Char → Bool) (l : List Char) :
    (l.dropWhile p).dropWhile p = l.dropWhile p := by
  cases h : l.dropWhile p with
  | nil => rfl
  | cons c t =>
    have hc := dropWhile_head_not h
    rw [List.dropWhile, hc]

theorem pyStrip_prefix_dropWhile (s : List Char) :
    pyStrip s <+: s.dropWhile isPySpace := by
  rw [← List.reverse_suffix, pyStrip, List.reverse_reverse]
  exact dropWhile_suffix_self isPySpace _

theorem tidyWs_pyStrip {s : List Char} (h : tidyWs s = true) :
    tidyWs (pyStrip s) = true := by
  have hA : tidyWs (s.dropWhile isPySpace) = true :=
    tidyWs_suffix (dropWhile_suffix_self isPySpace s) h
  obtain ⟨t, hBt⟩ := pyStrip_prefix_dropWhile s
  rw [← hBt] at hA
  exact tidyWs_append_left hA

theorem pyStrip_idem (s : List Char) : pyStrip (pyStrip s) = pyStrip s := by
  have hBrev : (pyStrip s).reverse =
      (s.dropWhile isPySpace).reverse.dropWhile isPySpace := by
    rw [pyStrip, List.reverse_reverse]
  have claim1 : (pyStrip s).dropWhile isPySpace = pyStrip s := by
    cases hB : pyStrip s with
    | nil => rfl
    | cons b bs =>
      obtain ⟨t, hBt⟩ := pyStrip_prefix_dropWhile s
      rw [hB] at hBt
      have hAeq : s.dropWhile isPySpace = b :: (bs ++ t) := by
        rw [← hBt, List.cons_append]
      have hb := dropWhile_head_not hAeq
      rw [List.dropWhile, hb]
  have claim2 : ((pyStrip s).reverse).dropWhile isPySpace =
      (pyStrip s).reverse := by
    rw [hBrev]
    exact dropWhile_idem isPySpace _
  rw [pyStrip, claim1, claim2, List.reverse_reverse]

/-- A single substitution pass is the identity on comma-, digit- and
uppercase-free strings whenever its scanner refuses such heads. -/
theorem pySub_id_cdu {tryM : Option Char → List Char → Option Nat}
    {repl : List Char}
    (hnone : ∀ pr c su, (c ≠ ',' ∧ c.isDigit = false ∧ c.isUpper = false) →
      (∀ x ∈ su, x ≠ ',' ∧ x.isDigit = false ∧ x.isUpper = false) →
      tryM pr (c :: su) = none)
    (s : List Char)
    (hs : ∀ c ∈ s, c ≠ ',' ∧ c.isDigit = false ∧ c.isUpper = false) :
    pySub tryM repl s = s := by
  rw [pySub]
  exact pySubAux_id hnone s.length none s hs

/-- On comma-, digit- and uppercase-free input, `remove_specific_locations`
reduces to the whitespace-collapsing pass followed by `strip`. -/
theorem remove_eval_cdu {t : List Char}
    (hcdu : ∀ c ∈ t, c ≠ ',' ∧ c.isDigit = false ∧ c.isUpper = false)
    (hne : ¬pyStrip t = []) :
    remove_specific_locations t = pyStrip (pySub trySpaces (chars " ") t) := by
  have hr1cdu : ∀ c ∈ pySub trySpaces (chars " ") t,
      c ≠ ',' ∧ c.isDigit = false ∧ c.isUpper = false := by
    intro c hc
    rw [pySub] at hc
    rcases pySubAux_mem t.length none t c hc with h | h
    · rcases List.mem_singleton.mp (show c ∈ [' '] from h) with rfl
      exact ⟨by decide, by decide, by decide⟩
    · exact hcdu c h
  rw [remove_specific_locations, if_neg hne]
  rw [pySub_id_cdu (fun pr c su hc _ => tryUpperDigit_none hc.2.2) t hcdu]
  rw [pySub_id_cdu (fun pr c su hc _ => tryDecimal_none hc.2.1) t hcdu]
  rw [pySub_id_cdu (fun pr c su hc _ => tryInteger_none hc.2.1) t hcdu]
  rw [pySub_id_cdu (fun pr c su hc _ => tryDbm_none hc.2.1) t hcdu]
  rw [pySub_id_cdu (fun pr c su hc _ => tryPercent_none hc.2.1) t hcdu]
  rw [pySub_id_cdu (fun pr c su hc _ => tryCommaComma_none hc.1) _ hr1cdu]
  rw [pySub_id_cdu (fun pr c su _ hsu =>
    trySpaceComma_none (fun x hx => (hsu x hx).1)) _ hr1cdu]

/-- Claim C9, amended: `remove_specific_locations` returns empty or
whitespace-only input unchanged, and it is idempotent on strings with no
comma, no ASCII digit and no uppercase ASCII letter; general idempotence
fails (see the counterexample). -/
theorem remove_specific_locations_restricted_idempotent (t : List Char) :
    (pyStrip t = [] → remove_specific_locations t = t) ∧
    ((∀ c ∈ t, c ≠ ',' ∧ c.isDigit = false ∧ c.isUpper = false) →
      remove_specific_locations (remove_specific_locations t) =
        remove_specific_locations t) := by
  constructor
  · intro h
    rw [remove_specific_locations, if_pos h]
  · intro hcdu
    by_cases hne : pyStrip t = []
    · have h1 : remove_specific_locations t = t := by
        rw [remove_specific_locations, if_pos hne]
      rw [h1]
      exact h1
    · have h1 := remove_eval_cdu hcdu hne
      have hrcdu : ∀ c ∈ pyStrip (pySub trySpaces (chars " ") t),
          c ≠ ',' ∧ c.isDigit = false ∧ c.isUpper = false := by
        intro c hc
        have hc2 := pyStrip_subset hc
        rw [pySub] at hc2
        rcases pySubAux_mem t.length none t c hc2 with h | h
        · rcases List.mem_singleton.mp (show c ∈ [' '] from h) with rfl
          exact ⟨by decide, by decide, by decide⟩
        · exact hcdu c h
      have hrtidy : tidyWs (pyStrip (pySub trySpaces (chars " ") t)) = true :=
        tidyWs_pyStrip (by rw [pySub]; exact collapse_tidy t.length t none le_rfl)
      rw [h1]
      by_cases hne2 : pyStrip (pyStrip (pySub trySpaces (chars " ") t)) = []
      · rw [remove_specific_locations, if_pos hne2]
      · rw [remove_eval_cdu hrcdu hne2]
        rw [show pySub trySpaces (chars " ")
            (pyStrip (pySub trySpaces (chars " ") t)) =
            pyStrip (pySub trySpaces (chars " ") t) from by
          rw [pySub]; exact collapse_id _ none _ hrtidy]
        exact pyStrip_idem _

/-- C9 amended witness: a whitespace-only string is a fixed point via the
guard, and a comma-, digit- and uppercase-free complaint is normalized
idempotently. -/
theorem remove_specific_locations_restricted_idempotent_witness :
    remove_specific_locations (chars "  ") = chars "  " ∧
    remove_specific_locations
        (remove_specific_locations (chars "signal  is weak here")) =
      remove_specific_locations (chars "signal  is weak here") :=
  ⟨(remove_specific_locations_restricted_idempotent (chars "  ")).1 (by decide),
   (remove_specific_locations_restricted_idempotent
      (chars "signal  is weak here")).2 (by decide)⟩

/-! ## Claim C6 amended: similarity symmetry on lowercase texts -/

theorem pyLower_id {s : List Char} (h : ∀ c ∈ s, c.isUpper = false) :
    pyLower s = s := by
  rw [pyLower]
  induction s with
  | nil => rfl
  | cons c rest ih =>
    rw [List.map_cons,
      show toLowerA c = c from by
        rw [toLowerA, if_neg]
        rw [h c (List.mem_cons_self c rest)]
        exact Bool.false_ne_true,
      ih (fun x hx => h x (List.mem_cons_of_mem c hx))]

theorem pySub_noUpper {tryM : Option Char → List Char → Option Nat}
    {repl : List Char} {s : List Char}
    (hrepl : ∀ c ∈ repl, c.isUpper = false)
    (hs : ∀ c ∈ s, c.isUpper = false) :
    ∀ c ∈ pySub tryM repl s, c.isUpper = false := by
  intro c hc
  rw [pySub] at hc
  rcases pySubAux_mem _ _ _ _ hc with h | h
  · exact hrepl c h
  · exact hs c h

/-- The replacement strings of `remove_specific_locations` are lowercase,
so the normalizer preserves the absence of uppercase letters. -/
theorem remove_noUpper {t : List Char}
    (ht : ∀ c ∈ t, c.isUpper = false) :
    ∀ c ∈ remove_specific_locations t, c.isUpper = false := by
  rw [remove_specific_locations]
  split
  · exact ht
  · have h1 := @pySub_noUpper tryUpperDigit (chars "the area") _
      (by decide) ht
    have h2 := @pySub_noUpper tryDecimal [] _
      (fun c hc => (List.not_mem_nil c hc).elim) h1
    have h3 := @pySub_noUpper tryInteger [] _
      (fun c hc => (List.not_mem_nil c hc).elim) h2
    have h4 := @pySub_noUpper tryDbm (chars "current signal level") _
      (by decide) h3
    have h5 := @pySub_noUpper tryPercent [] _
      (fun c hc => (List.not_mem_nil c hc).elim) h4
    have h6 := @pySub_noUpper trySpaces (chars " ") _
      (by decide) h5
    have h7 := @pySub_noUpper tryCommaComma (chars ",") _
      (by decide) h6
    have h8 := @pySub_noUpper trySpaceComma (chars ",") _
      (by decide) h7
    intro c hc
    exact h8 c (pyStrip_subset hc)

/-- Claim C6, amended: on texts free of uppercase ASCII letters the two
processing pipelines coincide, so the similarity score is symmetric and a
text scores `1` against itself when its token set is non-empty. -/
theorem simScore_noUpper_symm (A B : List Char)
    (hA : ∀ c ∈ A, c.isUpper = false) (hB : ∀ c ∈ B, c.isUpper = false) :
    simScore A B = simScore B A ∧
    ((complaintTokens A).Nonempty → simScore A A = 1) := by
  have htokA : issueTokens A = complaintTokens A := by
    rw [complaintTokens, issueTokens, pyLower_id hA,
      pyLower_id (remove_noUpper hA)]
  have htokB : issueTokens B = complaintTokens B := by
    rw [complaintTokens, issueTokens, pyLower_id hB,
      pyLower_id (remove_noUpper hB)]
  constructor
  · simp only [simScore, htokA, htokB]
    rw [Finset.inter_comm, Finset.union_comm]
  · intro hne
    have hpos : 0 < (complaintTokens A).card := Finset.card_pos.mpr hne
    simp only [simScore, htokA, Finset.inter_self, Finset.union_self]
    rw [if_pos hpos, div_self]
    exact Nat.cast_ne_zero.mpr (Nat.pos_iff_ne_zero.mp hpos)

/-- C6 amended witness: two concrete lowercase texts with symmetric scores,
and a self-score of `1`. -/
theorem simScore_noUpper_symm_witness :
    simScore (chars "web down") (chars "net slow") =
      simScore (chars "net slow") (chars "web down") ∧
    simScore (chars "web down") (chars "web down") = 1 :=
  ⟨(simScore_noUpper_symm (chars "web down") (chars "net slow")
      (by decide) (by decide)).1,
   (simScore_noUpper_symm (chars "web down") (chars "web down")
      (by decide) (by decide)).2 ⟨chars "web", by decide⟩⟩

/-! ## Claim C1: the strategy label decision procedure -/

/-- The formatter never returns the empty string, so a found exact match is
always truthy. -/
theorem format_solution_paragraphs_ne_nil (sol typ : List Char) :
    format_solution_paragraphs sol typ ≠ [] := by
  rw [format_solution_paragraphs]
  split
  · decide
  · intro h
    rcases List.append_eq_nil.mp h with ⟨-, h2⟩
    cases h2

theorem findMatchScan_some_ne_nil {sig s : List Char} :
    ∀ {corpus : List ComplaintRow}, findMatchScan sig corpus = some s →
      s ≠ [] := by
  intro corpus
  induction corpus with
  | nil => intro h; cases h
  | cons r rest ih =>
    intro h
    rw [findMatchScan] at h
    split at h
    · rw [← Option.some_inj.mp h]
      exact format_solution_paragraphs_ne_nil _ _
    · exact ih h

theorem find_exact_match_some_ne_nil {corpus : List ComplaintRow}
    {t : List Char} {c : CondDict} {s : List Char}
    (h : find_exact_match corpus t c = some s) : s ≠ [] := by
  rw [find_exact_match] at h
  split at h
  · cases h
  · exact findMatchScan_some_ne_nil h

/-- Claim C1: `generate_solution` assigns exactly one of the four strategy
labels by the documented decision procedure: a found exact match returns it
with `exact_match` (no oracle runs); otherwise, with similar candidates, a
present location context together with at least 3 candidates gives
`comprehensive_analysis` and anything else `pattern_analysis`; with no
candidates the label is `new_complaint`. -/
theorem generate_solution_strategy
    (llmC : CondDict → List ComplaintRow → Option LocationContext → List Char)
    (llmP : List Char → List ComplaintRow → List Char)
    (llmN : CondDict → Option LocationContext → List Char)
    (corpus : List ComplaintRow) (table : List LocationRow)
    (details : CondDict) (ct : List Char)
    (hct : dictGet details (chars "complaint") = some (PyVal.pstr ct)) :
    (∀ s, find_exact_match corpus ct details = some s →
      generate_solution llmC llmP llmN corpus table details =
        Except.ok (s, chars "exact_match")) ∧
    (find_exact_match corpus ct details = none →
      ∀ lc, get_location_context table details = Except.ok lc →
        (find_similar_complaints corpus ct 5 = [] →
          generate_solution llmC llmP llmN corpus table details =
            Except.ok (llmN details lc, chars "new_complaint")) ∧
        (find_similar_complaints corpus ct 5 ≠ [] →
          (lc.isSome ∧ 3 ≤ (find_similar_complaints corpus ct 5).length →
            generate_solution llmC llmP llmN corpus table details =
              Except.ok (llmC details (find_similar_complaints corpus ct 5) lc,
                chars "comprehensive_analysis")) ∧
          (¬(lc.isSome ∧ 3 ≤ (find_similar_complaints corpus ct 5).length) →
            generate_solution llmC llmP llmN corpus table details =
              Except.ok (llmP ct (find_similar_complaints corpus ct 5),
                chars "pattern_analysis")))) := by
  constructor
  · intro s hs
    have hne : s ≠ [] := find_exact_match_some_ne_nil hs
    simp only [generate_solution, hct, hs]
    rw [if_neg hne]
  · intro hx lc hlc
    refine ⟨?_, ?_⟩
    · intro hsims
      simp only [generate_solution, hct, hx, hlc, hsims]
      simp
    · intro hsims
      constructor
      · intro hcond
        simp only [generate_solution, hct, hx, hlc]
        rw [if_neg hsims, if_pos hcond]
      · intro hcond
        simp only [generate_solution, hct, hx, hlc]
        rw [if_neg hsims, if_neg hcond]

/-- C1 witness: a one-record corpus in which the incoming complaint matches
exactly, so the label is `exact_match` and the stored solution is returned
formatted. -/
theorem generate_solution_strategy_witness :
    generate_solution (fun _ _ _ => []) (fun _ _ => []) (fun _ _ => [])
      [simpleRow] [] [(chars "complaint", PyVal.pstr (chars "web down"))] =
      Except.ok
        (format_solution_paragraphs (chars "reset") (chars "exact_match"),
          chars "exact_match") :=
  (generate_solution_strategy (fun _ _ _ => []) (fun _ _ => []) (fun _ _ => [])
    [simpleRow] [] [(chars "complaint", PyVal.pstr (chars "web down"))]
    (chars "web down") (by decide)).1
    (format_solution_paragraphs (chars "reset") (chars "exact_match"))
    (by decide)
